import Mathlib

set_option autoImplicit false

/-!
Verification of the doctype drift-detection-and-repair pipeline.

The development shallowly embeds the data model and the core operations of
the repository: the anchor map store, the drift detector
(`packages/cli/src/services/drift-detector.ts`), the markdown anchor
extractor / content injector, the concurrent fix orchestrator
(`packages/cli/fix-orchestrator.ts` and the Sintesi variant of
`processTask`), the AI agent retry loop (`packages/ai/ai-agent.ts`), and
the `pMap` bounded-concurrency helper.  File contents are modelled as lists
of lines; file systems as functions from paths to optional file contents;
the external analyzer, content generator and version-control helper as
oracle functions supplied as parameters.  Definitions come first, then the
theorems about them.
-/

namespace Doctype

/-! ## Data model (from `core/types` as used by the CLI sources) -/

/-- A reference to a code symbol: `{filePath, symbolName}`. -/
structure CodeRef where
  filePath : String
  symbolName : String
  deriving Repr, DecidableEq

/-- A code signature produced by the external Analyzer.  The `hash` field is
optional in the source (`hash?: string`); a JS `undefined` hash is modelled
as `none`. -/
structure CodeSignature where
  symbolName : String
  symbolType : String
  signatureText : String
  isExported : Bool
  hash : Option String
  deriving Repr, DecidableEq

/-- Reference to the documentation file of an entry. -/
structure DocRef where
  filePath : String
  deriving Repr, DecidableEq

/-- A persisted map entry linking a code symbol to a documentation anchor. -/
structure DoctypeMapEntry where
  id : String
  codeRef : CodeRef
  codeSignatureHash : String
  codeSignatureText : Option String
  docRef : DocRef
  deriving Repr, DecidableEq

/-! ## Anchor map store

Modelled from the spec: the implementation file `content/map-manager.ts`
(class `DoctypeMapManager`) is not in the corpus, only its documentation and
its callers.  The definitions below follow the spec's words (section 4.2 and
the `DoctypeMapManager` public API): `getEntryById` returns the entry with
the given id, and `hasDrift(id, currentHash)` is "true iff entry exists and
`entry.codeSignatureHash != currentHash`; an absent entry is treated as
undocumented, not drifted". -/

/-- Modelled from the spec: lookup of a map entry by id
(`DoctypeMapManager.getEntryById`); the first entry with the id wins. -/
def getEntryById (entries : List DoctypeMapEntry) (id : String) :
    Option DoctypeMapEntry :=
  entries.find? (fun e => e.id == id)

/-- Modelled from the spec: `DoctypeMapManager.hasDrift(id, currentHash)` —
true iff an entry with the id exists and its stored `codeSignatureHash`
differs from `currentHash`. -/
def hasDrift (entries : List DoctypeMapEntry) (id currentHash : String) :
    Bool :=
  (getEntryById entries id).elim false
    (fun e => e.codeSignatureHash != currentHash)

/-- Modelled from the spec: `DoctypeMapManager.updateEntry(id, updates)`
merges the given fields into the entry with the id; fails when the id is
absent.  Only the two fields the fix orchestrator updates (hash and
signature text) are taken as arguments. -/
def updateEntry (entries : List DoctypeMapEntry) (id : String)
    (newHash : String) (newText : Option String) :
    Except String (List DoctypeMapEntry) :=
  match getEntryById entries id with
  | none => .error ("Entry with id \"" ++ id ++ "\" not found")
  | some _ =>
      .ok (entries.map (fun e =>
        if e.id == id then
          { e with codeSignatureHash := newHash, codeSignatureText := newText }
        else e))

/-- Modelled from the spec: `DoctypeMapManager.addEntry(entry)` appends the
entry; fails with a duplicate-id error when the id is already present. -/
def addEntry (entries : List DoctypeMapEntry) (e : DoctypeMapEntry) :
    Except String (List DoctypeMapEntry) :=
  match getEntryById entries e.id with
  | some _ => .error ("Entry with id \"" ++ e.id ++ "\" already exists")
  | none => .ok (entries ++ [e])

/-! ## AI agent retry loop (`packages/ai/ai-agent.ts`)

`AIAgent.executeWithRetry` calls a provider function, and on failure
consults `isRetryableError`: only an `AIProviderError` whose `code` is one
of `TIMEOUT`, `RATE_LIMIT`, `NETWORK_ERROR` is retryable; a retryable error
with attempts left sleeps `retryConfig.delayMs` and recurses with
`attempt + 1`; otherwise the error is rethrown.  The provider call is
modelled as an oracle indexed by the attempt number; the trace records how
many calls were made and the delays slept between them. -/

/-- An error raised by the provider: either an `AIProviderError` with an
optional `code`, or any other exception. -/
inductive AIError where
  | provider (code : Option String) (message : String)
  | other (message : String)
  deriving Repr, DecidableEq

/-- `AIAgent.isRetryableError`: true only for an `AIProviderError` whose
code is `TIMEOUT`, `RATE_LIMIT` or `NETWORK_ERROR` (a JS-falsy empty code
fails the `error.code` guard, and is not in the list either). -/
def isRetryableError : AIError → Bool
  | .provider (some c) _ =>
      c == "TIMEOUT" || c == "RATE_LIMIT" || c == "NETWORK_ERROR"
  | .provider none _ => false
  | .other _ => false

/-- Trace of one `executeWithRetry` run: the final result, the number of
provider calls made, and the delays slept between consecutive calls. -/
structure RetryTrace (α : Type) where
  result : Except AIError α
  attemptsUsed : Nat
  delays : List Nat
  deriving Repr

/-- `AIAgent.executeWithRetry(fn, attempt)`: call the provider; on a
retryable error with `attempt < maxAttempts`, sleep `delayMs` and retry at
`attempt + 1`; otherwise return the error. -/
def executeWithRetry {α : Type} (oracle : Nat → Except AIError α)
    (maxAttempts delayMs attempt : Nat) : RetryTrace α :=
  match oracle attempt with
  | .ok v => ⟨.ok v, 1, []⟩
  | .error e =>
      if h : isRetryableError e = true ∧ attempt < maxAttempts then
        let t := executeWithRetry oracle maxAttempts delayMs (attempt + 1)
        ⟨t.result, t.attemptsUsed + 1, delayMs :: t.delays⟩
      else
        ⟨.error e, 1, []⟩
termination_by maxAttempts - attempt
decreasing_by exact Nat.sub_lt_sub_left h.2 (Nat.lt_succ_self attempt)

/-! ## Markdown anchors: extraction and injection

Modelled from the spec: the implementations of the anchor extractor
(`extractAnchors` / `markdown-parser.ts`) and of `content-injector.ts` are
not in the corpus, only their documentation and callers.  A markdown file is
modelled as a list of lines; a line is either plain text, a start marker
carrying an anchor id and a `code_ref`, or an end marker carrying an id
(spec section 6, "Markdown boundary syntax").  Extraction finds the first
start marker with the requested id and the first end marker with the same id
after it; the content is the lines strictly between the two marker lines,
preserved exactly (spec section 4.1).  Injection rebuilds the file as
before-text, unchanged start marker line, the new content, unchanged end
marker line, after-text (spec section 4.4). -/

/-- A line of a markdown file. -/
inductive Line where
  | text (s : String)
  | startMarker (id : String) (codeRef : String)
  | endMarker (id : String)
  deriving Repr, DecidableEq

/-- Is this line a start marker for the given anchor id? -/
def isStartFor (aid : String) : Line → Bool
  | .startMarker i _ => i == aid
  | _ => false

/-- Is this line an end marker for the given anchor id? -/
def isEndFor (aid : String) : Line → Bool
  | .endMarker i => i == aid
  | _ => false

/-- Is this line plain text (no marker at all)? -/
def isTextLine : Line → Bool
  | .text _ => true
  | _ => false

/-- Render one line back to its byte representation. -/
def renderLine : Line → String
  | .text s => s
  | .startMarker i r =>
      "<!-- doctype:start id=\"" ++ i ++ "\" code_ref=\"" ++ r ++ "\" -->"
  | .endMarker i => "<!-- doctype:end id=\"" ++ i ++ "\" -->"

/-- Render a whole document, lines joined by newlines. -/
def renderDoc (doc : List Line) : String :=
  String.intercalate "\n" (doc.map renderLine)

/-- Modelled from the spec: scan for the first start marker with the given
id, returning the lines before it, its `code_ref`, and the lines after it. -/
def findStartSplit (aid : String) : List Line →
    Option (List Line × String × List Line)
  | [] => none
  | .startMarker i r :: rest =>
      if i == aid then some ([], r, rest)
      else (findStartSplit aid rest).map
        (fun p => (Line.startMarker i r :: p.1, p.2.1, p.2.2))
  | l :: rest =>
      (findStartSplit aid rest).map (fun p => (l :: p.1, p.2.1, p.2.2))

/-- Modelled from the spec: scan for the first end marker with the given id,
returning the lines before it (the managed content) and the lines after. -/
def findEndSplit (aid : String) : List Line →
    Option (List Line × List Line)
  | [] => none
  | .endMarker i :: rest =>
      if i == aid then some ([], rest)
      else (findEndSplit aid rest).map
        (fun p => (Line.endMarker i :: p.1, p.2))
  | l :: rest => (findEndSplit aid rest).map (fun p => (l :: p.1, p.2))

/-- The decomposition of a document around one anchor block. -/
structure AnchorSplit where
  before : List Line
  codeRef : String
  content : List Line
  after : List Line
  deriving Repr, DecidableEq

/-- Modelled from the spec: locate the anchor block with the given id. -/
def splitAnchor (doc : List Line) (aid : String) : Option AnchorSplit :=
  match findStartSplit aid doc with
  | none => none
  | some (b, r, rest) =>
      match findEndSplit aid rest with
      | none => none
      | some (c, a) => some ⟨b, r, c, a⟩

/-- Modelled from the spec: the extractor's `content` for the anchor with
the given id — the text strictly between the two markers. -/
def extractAnchorContent (doc : List Line) (aid : String) :
    Option (List Line) :=
  (splitAnchor doc aid).map (·.content)

/-- Modelled from the spec: produce the new file body — text before the
start marker, the unchanged start marker line, the new content, the
unchanged end marker line, the unchanged text after the end marker. -/
def injectContent (doc : List Line) (aid : String)
    (newContent : List Line) : Option (List Line) :=
  (splitAnchor doc aid).map (fun s =>
    s.before ++ [Line.startMarker aid s.codeRef] ++ newContent ++
      [Line.endMarker aid] ++ s.after)

/-! ## File system and content injection into files -/

/-- A file system: paths to optional file contents (lists of lines). -/
def FS : Type := String → Option (List Line)

/-- Overwrite one file (full-file rewrite, as `save` and injection do). -/
def FS.update (fs : FS) (p : String) (c : List Line) : FS :=
  fun q => if q == p then some c else fs q

/-- Result of `ContentInjector.injectIntoFile`. -/
structure InjectionResult where
  success : Bool
  content : List Line
  linesChanged : Int
  error : Option String
  deriving Repr

/-- Modelled from the spec: `ContentInjector.injectIntoFile(filePath,
anchorId, newContent, writeToFile)` — read the file; locate the anchor; on
failure leave the file untouched; otherwise build the new body and, only
when `writeToFile` is true, write it back (all-or-nothing). -/
def injectIntoFile (fs : FS) (path aid : String) (newContent : List Line)
    (writeToFile : Bool) : InjectionResult × FS :=
  match fs path with
  | none => (⟨false, [], 0, some ("File not found: " ++ path)⟩, fs)
  | some doc =>
      match splitAnchor doc aid with
      | none => (⟨false, doc, 0, some ("Anchor not found: " ++ aid)⟩, fs)
      | some s =>
          let newDoc := s.before ++ [Line.startMarker aid s.codeRef] ++
            newContent ++ [Line.endMarker aid] ++ s.after
          (⟨true, newDoc, (newDoc.length : Int) - (doc.length : Int), none⟩,
            if writeToFile then fs.update path newDoc else fs)

/-- Modelled from the spec: `MarkdownAnchorInserter.insertIntoFile` —
append a brand-new anchor block (with the given id and `code_ref`) holding
the content; create the file when absent; write only when requested. -/
def insertIntoFile (fs : FS) (path aid codeRef : String)
    (content : List Line) (writeToFile : Bool) : InjectionResult × FS :=
  let old := (fs path).getD []
  let newDoc := old ++ [Line.startMarker aid codeRef] ++ content ++
    [Line.endMarker aid]
  (⟨true, newDoc, (newDoc.length : Int) - (old.length : Int), none⟩,
    if writeToFile then fs.update path newDoc else fs)

/-- Running a batch of injections into one file strictly one after the
other (the per-file lock's serialization guarantee, spec section 5). -/
def runSerialInjections (fs : FS) (path : String)
    (tasks : List (String × List Line)) : FS :=
  tasks.foldl (fun f t => (injectIntoFile f path t.1 t.2 true).2) fs

/-! ## Drift detector (`packages/cli/src/services/drift-detector.ts`)

`detectDrift` iterates the map entries; per entry it resolves the code file
against the base path, reports `file_not_found` when the file is absent,
asks the analyzer for the file's signatures and reports `symbol_not_found`
when none matches the entry's symbol name; a missing or empty analyzer hash
is skipped with a warning; otherwise `hasDrift` decides whether to emit a
`DriftInfo` with the old signature reconstructed from `codeSignatureText`.
Errors while analyzing one entry are caught per entry.  Path resolution,
file existence and the analyzer are oracle parameters (externals). -/

/-- Information about a detected drift (`DriftInfo`). -/
structure DriftInfo where
  entry : DoctypeMapEntry
  oldSignature : Option CodeSignature
  currentSignature : CodeSignature
  currentHash : String
  oldHash : String
  deriving Repr, DecidableEq

/-- Why an entry is reported missing. -/
inductive MissingReason where
  | file_not_found
  | symbol_not_found
  deriving Repr, DecidableEq

/-- Information about a missing symbol (`MissingSymbolInfo`). -/
structure MissingSymbolInfo where
  entry : DoctypeMapEntry
  reason : MissingReason
  codeFilePath : String
  deriving Repr, DecidableEq

/-- Result of drift detection (`DriftResult`). -/
structure DriftResult where
  drifts : List DriftInfo
  missing : List MissingSymbolInfo
  deriving Repr, DecidableEq

/-- What one loop iteration of `detectDrift` contributes. -/
inductive EntryOutcome where
  | drift (d : DriftInfo)
  | missingInfo (m : MissingSymbolInfo)
  | nothing
  deriving Repr, DecidableEq

/-- One iteration of the `detectDrift` loop for one map entry.  A JS
`undefined` hash and an empty-string hash both fail the code's
`if (!currentHash)` guard, modelled by `hash.getD ""` compared to `""`;
an analyzer exception is caught per entry and contributes nothing. -/
def detectEntry (resolveP : String → String → String)
    (existsFile : String → Bool)
    (analyzeFile : String → Except String (List CodeSignature))
    (basePath : String) (mapEntries : List DoctypeMapEntry)
    (entry : DoctypeMapEntry) : EntryOutcome :=
  let codeFilePath := resolveP basePath entry.codeRef.filePath
  if existsFile codeFilePath = false then
    .missingInfo ⟨entry, .file_not_found, codeFilePath⟩
  else
    match analyzeFile codeFilePath with
    | .error _ => .nothing
    | .ok signatures =>
        match signatures.find?
            (fun sig => sig.symbolName == entry.codeRef.symbolName) with
        | none => .missingInfo ⟨entry, .symbol_not_found, codeFilePath⟩
        | some currentSignature =>
            let currentHash := currentSignature.hash.getD ""
            if currentHash == "" then .nothing
            else if hasDrift mapEntries entry.id currentHash then
              .drift ⟨entry,
                entry.codeSignatureText.map (fun t =>
                  ⟨entry.codeRef.symbolName, currentSignature.symbolType, t,
                    currentSignature.isExported, none⟩),
                currentSignature, currentHash, entry.codeSignatureHash⟩
            else .nothing

/-- The `detectDrift` loop over a given list of entries, accumulating in
iteration order (the `hasDrift` lookups always consult the whole map). -/
def detectDriftAux (resolveP : String → String → String)
    (existsFile : String → Bool)
    (analyzeFile : String → Except String (List CodeSignature))
    (basePath : String) (mapEntries toProcess : List DoctypeMapEntry) :
    DriftResult :=
  { drifts := toProcess.filterMap (fun e =>
      match detectEntry resolveP existsFile analyzeFile basePath
          mapEntries e with
      | .drift d => some d
      | _ => none),
    missing := toProcess.filterMap (fun e =>
      match detectEntry resolveP existsFile analyzeFile basePath
          mapEntries e with
      | .missingInfo m => some m
      | _ => none) }

/-- `detectDrift(mapManager, analyzer, options)`: process every entry of
the map. -/
def detectDrift (resolveP : String → String → String)
    (existsFile : String → Bool)
    (analyzeFile : String → Except String (List CodeSignature))
    (basePath : String) (mapEntries : List DoctypeMapEntry) : DriftResult :=
  detectDriftAux resolveP existsFile analyzeFile basePath mapEntries
    mapEntries

/-! ## Fix orchestrator (`packages/cli/fix-orchestrator.ts`)

`executeFixes` runs a parallel generation phase (`generateTask` through
`pMap`, whose awaited result is the mapper applied to each drift in order),
groups the generation results by resolved documentation file, applies them
file by file through `ContentInjector.injectIntoFile`, updates the map
entry on success (skipped in dry-run), saves the map once at the end when
anything succeeded, optionally auto-commits, and aggregates a `FixResult`.
The AI call wrapped in `retry(...)` is modelled as an oracle giving, per
drift, either the generated content or the error left after the bounded
retries. -/

/-- CLI options consumed by `executeFixes`. -/
structure FixOptions where
  dryRun : Bool
  noAI : Bool
  autoCommit : Bool
  deriving Repr, DecidableEq

/-- One per-item outcome (`FixDetail`). -/
structure FixDetail where
  id : String
  symbolName : String
  codeFilePath : String
  docFilePath : String
  success : Bool
  newContent : Option (List Line)
  error : Option String
  deriving Repr, DecidableEq

/-- The aggregated result (`FixResult`). -/
structure FixResult where
  totalFixes : Nat
  successfulFixes : Nat
  failedFixes : Nat
  fixes : List FixDetail
  success : Bool
  deriving Repr, DecidableEq

/-- Result of a generation task (`GenerationResult`). -/
structure GenerationResult where
  drift : DriftInfo
  content : List Line
  success : Bool
  error : Option String
  deriving Repr, DecidableEq

/-- Result of the version-control helper (`autoCommit`). -/
structure CommitResult where
  success : Bool
  output : Option String
  error : Option String
  deriving Repr, DecidableEq

/-- `generatePlaceholderContent(symbolName, signature)`: the deterministic
placeholder built from the symbol name and current signature text. -/
def generatePlaceholderContent (symbolName signature : String) :
    List Line :=
  [Line.text ("**" ++ symbolName ++ "** - Documentation needs generation"),
   Line.text "",
   Line.text "Current signature:",
   Line.text "```typescript",
   Line.text signature,
   Line.text "```",
   Line.text "",
   Line.text ("*This content is a placeholder. Run \x27doctype generate\x27 " ++
     "with a valid AI API key to generate full documentation.*")]

/-- `generateTask(drift)`: with AI in use, take the retry-wrapped
generation outcome; when it failed after the retries, fall back to the
placeholder and continue (still a success-shaped generation result);
without AI, use the placeholder directly. -/
def generateTask (useAI : Bool)
    (genOracle : DriftInfo → Except String (List Line))
    (drift : DriftInfo) : GenerationResult :=
  if useAI then
    match genOracle drift with
    | .ok content => ⟨drift, content, true, none⟩
    | .error _ =>
        ⟨drift, generatePlaceholderContent drift.entry.codeRef.symbolName
          drift.currentSignature.signatureText, true, none⟩
  else
    ⟨drift, generatePlaceholderContent drift.entry.codeRef.symbolName
      drift.currentSignature.signatureText, true, none⟩

/-- Append a generation result to its file's bucket (insertion-ordered map
of `resultsByFile`). -/
def groupInsert (k : String) (r : GenerationResult) :
    List (String × List GenerationResult) →
    List (String × List GenerationResult)
  | [] => [(k, [r])]
  | (k2, rs) :: rest =>
      if k2 == k then (k2, rs ++ [r]) :: rest
      else (k2, rs) :: groupInsert k r rest

/-- Group the generation results by resolved documentation file path,
preserving insertion order. -/
def groupByFile (resolveP : String → String → String) (projectBase : String)
    (results : List GenerationResult) :
    List (String × List GenerationResult) :=
  results.foldl
    (fun acc r =>
      groupInsert (resolveP projectBase r.drift.entry.docRef.filePath) r acc)
    []

/-- Orchestrator state threaded through the application phase: the file
system, the in-memory map, the counters and the accumulated outcomes. -/
structure OrchState where
  fs : FS
  mapMem : List DoctypeMapEntry
  successCount : Nat
  failCount : Nat
  fixes : List FixDetail

/-- Build one `FixDetail` for an entry. -/
def mkFixDetail (e : DoctypeMapEntry) (succ : Bool)
    (content : Option (List Line)) (err : Option String) : FixDetail :=
  ⟨e.id, e.codeRef.symbolName, e.codeRef.filePath, e.docRef.filePath, succ,
    content, err⟩

/-- One iteration of the application loop of `executeFixes` for one
generation result: a failed generation is recorded as a failed outcome;
otherwise inject (writing only outside dry-run); on injection success bump
the success counter, update the map entry outside dry-run (a thrown
`NotFoundError` is caught and recorded as a failed outcome), and record the
outcome; injection failure or exception is recorded as a failed outcome and
the loop continues. -/
def applyResult (options : FixOptions) (docPath : String) (st : OrchState)
    (res : GenerationResult) : OrchState :=
  let e := res.drift.entry
  if res.success = false then
    { st with
        failCount := st.failCount + 1,
        fixes := st.fixes ++ [mkFixDetail e false none res.error] }
  else
    let writeToFile := !options.dryRun
    let out := injectIntoFile st.fs docPath e.id res.content writeToFile
    if out.1.success then
      let scount := st.successCount + 1
      if options.dryRun then
        { st with
            fs := out.2,
            successCount := scount,
            fixes := st.fixes ++
              [mkFixDetail e true (some res.content) none] }
      else
        match updateEntry st.mapMem e.id
            (res.drift.currentSignature.hash.getD "")
            (some res.drift.currentSignature.signatureText) with
        | .ok m =>
            { fs := out.2, mapMem := m, successCount := scount,
              failCount := st.failCount,
              fixes := st.fixes ++
                [mkFixDetail e true (some res.content) none] }
        | .error msg =>
            { fs := out.2, mapMem := st.mapMem, successCount := scount,
              failCount := st.failCount + 1,
              fixes := st.fixes ++ [mkFixDetail e false none (some msg)] }
    else
      { st with
          fs := out.2,
          failCount := st.failCount + 1,
          fixes := st.fixes ++ [mkFixDetail e false none out.1.error] }

/-- The map store's in-memory snapshot and its on-disk copy. -/
structure MapState where
  mem : List DoctypeMapEntry
  disk : List DoctypeMapEntry

/-- `executeFixes(drifts, mapManager, options, config, logger)`: the whole
pipeline.  Returns the `FixResult`, the final file system, the final map
state (memory and disk), and the commit attempt when one was made. -/
def executeFixes (drifts : List DriftInfo) (mapState : MapState)
    (options : FixOptions) (useAI : Bool)
    (genOracle : DriftInfo → Except String (List Line))
    (resolveP : String → String → String) (projectBase mapPath : String)
    (fs : FS)
    (commitOracle : List String → List String → Bool → CommitResult) :
    FixResult × FS × MapState × Option CommitResult :=
  let results := drifts.map (generateTask useAI genOracle)
  let groups := groupByFile resolveP projectBase results
  let st0 : OrchState := ⟨fs, mapState.mem, 0, 0, []⟩
  let stEnd := groups.foldl
    (fun st g => g.2.foldl (applyResult options g.1) st) st0
  let mapState2 : MapState :=
    { mem := stEnd.mapMem,
      disk := if options.dryRun = false ∧ 0 < stEnd.successCount then
          stEnd.mapMem
        else mapState.disk }
  let commitRes : Option CommitResult :=
    if options.dryRun = false ∧ options.autoCommit = true ∧
        0 < stEnd.successCount then
      some (commitOracle
        ((((stEnd.fixes.filter (fun f => f.success)).map
          (fun f => f.docFilePath)) ++ [mapPath]).dedup)
        ((stEnd.fixes.filter (fun f => f.success)).map
          (fun f => f.symbolName))
        false)
    else none
  ({ totalFixes := stEnd.fixes.length,
     successfulFixes := stEnd.successCount,
     failedFixes := stEnd.failCount,
     fixes := stEnd.fixes,
     success := stEnd.failCount == 0 },
   stEnd.fs, mapState2, commitRes)

/-- Total number of generation results held in the file groups. -/
def groupsSize (gs : List (String × List GenerationResult)) : Nat :=
  (gs.map (fun g => g.2.length)).sum

/-! ## Sintesi fix orchestrator `processTask` (src/unnamed/part_001)

In the Sintesi variant each drift is processed end to end by
`processTask`: generation (modelled by the per-item content argument,
already resolved), then — inside the per-file lock — injection into an
existing anchor or insertion of a new block, and on success an immediate
map update (`updateEntry` when the id is present, `addEntry` otherwise)
followed immediately by `mapManager.save()`, so that the on-disk map tracks
every completed item. -/

/-- State threaded through the Sintesi fix run: the file system, the
in-memory map and the on-disk map. -/
structure SintesiState where
  fs : FS
  mapMem : List DoctypeMapEntry
  mapDisk : List DoctypeMapEntry

/-- The write step of the Sintesi `processTask`: update the existing
anchor when the document already holds one with the entry's id
(`injectIntoFile`), create a new block otherwise (`insertIntoFile`). -/
def sintesiWrite (fs : FS) (docPath : String) (d : DriftInfo)
    (content : List Line) (writeToFile : Bool) : InjectionResult × FS :=
  let e := d.entry
  let anchorExists := match fs docPath with
    | none => false
    | some doc => (splitAnchor doc e.id).isSome
  if anchorExists then
    injectIntoFile fs docPath e.id content writeToFile
  else
    insertIntoFile fs docPath e.id
      (e.codeRef.filePath ++ "#" ++ e.codeRef.symbolName) content
      writeToFile

/-- The injection-and-persist section of the Sintesi `processTask` for one
drift with its generated content. -/
def processTaskS (options : FixOptions)
    (resolveP : String → String → String) (projectBase : String)
    (st : SintesiState) (d : DriftInfo) (content : List Line) :
    SintesiState × FixDetail :=
  let e := d.entry
  let docPath := resolveP projectBase e.docRef.filePath
  let out := sintesiWrite st.fs docPath d content (!options.dryRun)
  if out.1.success then
    if options.dryRun then
      ({ st with fs := out.2 }, mkFixDetail e true (some content) none)
    else
      let mem2 := match getEntryById st.mapMem e.id with
        | some _ =>
            match updateEntry st.mapMem e.id
                (d.currentSignature.hash.getD "")
                (some d.currentSignature.signatureText) with
            | .ok m => m
            | .error _ => st.mapMem
        | none =>
            match addEntry st.mapMem e with
            | .ok m => m
            | .error _ => st.mapMem
      ({ fs := out.2, mapMem := mem2, mapDisk := mem2 },
        mkFixDetail e true (some content) none)
  else
    ({ st with fs := out.2 }, mkFixDetail e false none out.1.error)

/-- Run the Sintesi injection sections for a list of (drift, content)
pairs in order (the order in which the per-file lock grants them). -/
def runSintesi (options : FixOptions)
    (resolveP : String → String → String) (projectBase : String)
    (st : SintesiState) (tasks : List (DriftInfo × List Line)) :
    SintesiState × List FixDetail :=
  tasks.foldl (fun acc t =>
    let r := processTaskS options resolveP projectBase acc.1 t.1 t.2
    (r.1, acc.2 ++ [r.2])) (st, [])

/-! ## `pMap` bounded-concurrency helper (fix-orchestrator.ts lines 31-58)

`pMap(items, mapper, concurrency)` allocates `results` of the input
length, spawns `concurrency` worker loops over a shared `index`, each loop
atomically claiming `curIndex = index++` while `index < items.length`,
awaiting `mapper(items[curIndex])` and storing the value at `curIndex`,
and resolves with `results` when all workers have finished.  The loop is
modelled as a small-step transition system: a worker is idle (at the loop
head), running a claimed index, or done; the claim-and-increment is one
atomic step (synchronous JS between awaits), and storing a finished
mapper result is another. -/

/-- Status of one `pMap` worker loop. -/
inductive WStatus where
  | idle
  | running (idx : Nat)
  | done
  deriving Repr, DecidableEq

/-- The shared state of a `pMap` run. -/
structure PMapState (R : Type) where
  nextIndex : Nat
  results : List (Option R)
  workers : List WStatus

/-- One atomic step of the `pMap` execution. -/
inductive PMapStep {T R : Type} (items : List T) (f : T → R) :
    PMapState R → PMapState R → Prop where
  | claim (s : PMapState R) (w : Nat)
      (hw : s.workers[w]? = some .idle)
      (hidx : s.nextIndex < items.length) :
      PMapStep items f s
        ⟨s.nextIndex + 1, s.results, s.workers.set w (.running s.nextIndex)⟩
  | finish (s : PMapState R) (w : Nat)
      (hw : s.workers[w]? = some .idle)
      (hidx : items.length ≤ s.nextIndex) :
      PMapStep items f s ⟨s.nextIndex, s.results, s.workers.set w .done⟩
  | complete (s : PMapState R) (w i : Nat)
      (hw : s.workers[w]? = some (.running i)) (hi : i < items.length) :
      PMapStep items f s
        ⟨s.nextIndex, s.results.set i (some (f (items.get ⟨i, hi⟩))),
          s.workers.set w .idle⟩

/-- The initial `pMap` state: fresh result slots, all workers at the loop
head. -/
def pMapInit (R : Type) (n conc : Nat) : PMapState R :=
  ⟨0, List.replicate n none, List.replicate conc .idle⟩

/-- States reachable by a `pMap` run with the given concurrency. -/
def PMapReachable {T R : Type} (items : List T) (f : T → R) (conc : Nat)
    (s : PMapState R) : Prop :=
  Relation.ReflTransGen (PMapStep items f) (pMapInit R items.length conc) s

/-- Is a worker currently inside a mapper invocation? -/
def isRunningW : WStatus → Bool
  | .running _ => true
  | _ => false

/-- A `pMap` run is finished when every worker loop has exited. -/
def pMapFinished {R : Type} (s : PMapState R) : Prop :=
  ∀ w ∈ s.workers, w = WStatus.done

/-- The inductive invariant of a `pMap` run: slot and worker counts are
fixed; `nextIndex` never passes the input length; unclaimed slots are
empty; a running worker holds a claimed index with an empty slot; no index
is run by two workers; every claimed index is either still running or
already holds the mapper's value for that index; and a worker only exits
once every index has been claimed. -/
def pMapInv {T R : Type} (items : List T) (f : T → R) (conc : Nat)
    (s : PMapState R) : Prop :=
  s.results.length = items.length ∧
  s.workers.length = conc ∧
  s.nextIndex ≤ items.length ∧
  (∀ j : Nat, s.nextIndex ≤ j → j < items.length →
    s.results[j]? = some none) ∧
  (∀ (w i : Nat), s.workers[w]? = some (WStatus.running i) →
    i < s.nextIndex ∧ s.results[i]? = some none) ∧
  (∀ (w w2 i : Nat), s.workers[w]? = some (WStatus.running i) →
    s.workers[w2]? = some (WStatus.running i) → w = w2) ∧
  (∀ j : Nat, j < s.nextIndex →
    (∃ w : Nat, s.workers[w]? = some (WStatus.running j)) ∨
    (∃ h : j < items.length,
      s.results[j]? = some (some (f (items.get ⟨j, h⟩))))) ∧
  ((∃ w : Nat, s.workers[w]? = some WStatus.done) →
    s.nextIndex = items.length)

end Doctype

namespace Doctype

/-! # Theorems -/

/-! ## Helper lemmas on anchor scanning -/

/-- Helper: stepping `findStartSplit` over a non-matching line. -/
theorem findStartSplit_cons_of_not (aid : String) (l : Line)
    (h : isStartFor aid l = false) (xs : List Line) :
    findStartSplit aid (l :: xs) =
      (findStartSplit aid xs).map (fun p => (l :: p.1, p.2.1, p.2.2)) := by
  cases l with
  | text s => rfl
  | startMarker i r =>
      simp only [isStartFor] at h
      simp [findStartSplit, h]
  | endMarker i => rfl

/-- Helper: stepping `findEndSplit` over a non-matching line. -/
theorem findEndSplit_cons_of_not (aid : String) (l : Line)
    (h : isEndFor aid l = false) (xs : List Line) :
    findEndSplit aid (l :: xs) =
      (findEndSplit aid xs).map (fun p => (l :: p.1, p.2)) := by
  cases l with
  | text s => rfl
  | startMarker i r => rfl
  | endMarker i =>
      simp only [isEndFor] at h
      simp [findEndSplit, h]

/-- Helper: `findStartSplit` locates the first matching start marker when
the prefix contains none. -/
theorem findStartSplit_append (aid : String) (P : List Line)
    (hP : ∀ l ∈ P, isStartFor aid l = false) (r : String)
    (rest : List Line) :
    findStartSplit aid (P ++ Line.startMarker aid r :: rest) =
      some (P, r, rest) := by
  induction P with
  | nil => simp [findStartSplit]
  | cons l P ih =>
      have hl : isStartFor aid l = false := hP l (List.mem_cons_self l P)
      have hrest : ∀ x ∈ P, isStartFor aid x = false :=
        fun x hx => hP x (List.mem_cons_of_mem l hx)
      rw [List.cons_append, findStartSplit_cons_of_not aid l hl, ih hrest]
      rfl

/-- Helper: `findEndSplit` locates the first matching end marker when the
content before it contains none. -/
theorem findEndSplit_append (aid : String) (C : List Line)
    (hC : ∀ l ∈ C, isEndFor aid l = false) (rest : List Line) :
    findEndSplit aid (C ++ Line.endMarker aid :: rest) = some (C, rest) := by
  induction C with
  | nil => simp [findEndSplit]
  | cons l C ih =>
      have hl : isEndFor aid l = false := hC l (List.mem_cons_self l C)
      have hrest : ∀ x ∈ C, isEndFor aid x = false :=
        fun x hx => hC x (List.mem_cons_of_mem l hx)
      rw [List.cons_append, findEndSplit_cons_of_not aid l hl, ih hrest]
      rfl

/-- Helper: `splitAnchor` on a document with a well-formed anchor block
returns exactly that decomposition. -/
theorem splitAnchor_of_shape (aid : String) (P C S : List Line) (r : String)
    (hP : ∀ l ∈ P, isStartFor aid l = false)
    (hC : ∀ l ∈ C, isEndFor aid l = false) :
    splitAnchor
        (P ++ [Line.startMarker aid r] ++ C ++ [Line.endMarker aid] ++ S)
        aid = some ⟨P, r, C, S⟩ := by
  have h1 : P ++ [Line.startMarker aid r] ++ C ++ [Line.endMarker aid] ++ S =
      P ++ Line.startMarker aid r :: (C ++ Line.endMarker aid :: S) := by
    simp
  rw [h1]
  unfold splitAnchor
  rw [findStartSplit_append aid P hP r _]
  simp [findEndSplit_append aid C hC S]

/-- Helper: a text line is never a start marker. -/
theorem isStartFor_of_text (a : String) (l : Line)
    (h : isTextLine l = true) : isStartFor a l = false := by
  cases l with
  | text s => rfl
  | startMarker i r => simp [isTextLine] at h
  | endMarker i => simp [isTextLine] at h

/-- Helper: a text line is never an end marker. -/
theorem isEndFor_of_text (a : String) (l : Line)
    (h : isTextLine l = true) : isEndFor a l = false := by
  cases l with
  | text s => rfl
  | startMarker i r => simp [isTextLine] at h
  | endMarker i => simp [isTextLine] at h

/-- Helper: a start marker for a different id is not a start marker for
this one. -/
theorem isStartFor_startMarker_ne (a b r : String) (h : a ≠ b) :
    isStartFor b (Line.startMarker a r) = false := by
  simp [isStartFor]
  exact h

/-- Helper: an end marker is never a start marker. -/
theorem isStartFor_endMarker (a b : String) :
    isStartFor b (Line.endMarker a) = false := rfl

/-- Helper: an end marker for a different id is not an end marker for this
one. -/
theorem isEndFor_endMarker_ne (a b : String) (h : a ≠ b) :
    isEndFor b (Line.endMarker a) = false := by
  simp [isEndFor]
  exact h

/-- Helper: a start marker is never an end marker. -/
theorem isEndFor_startMarker (a b r : String) :
    isEndFor b (Line.startMarker a r) = false := rfl

/-- Helper: extraction on a document with a well-formed block for the id
returns the block content. -/
theorem extractAnchorContent_of_shape (aid r : String)
    (P C S doc : List Line)
    (hdoc : doc = P ++ [Line.startMarker aid r] ++ C ++
      [Line.endMarker aid] ++ S)
    (hP : ∀ l ∈ P, isStartFor aid l = false)
    (hC : ∀ l ∈ C, isEndFor aid l = false) :
    extractAnchorContent doc aid = some C := by
  subst hdoc
  unfold extractAnchorContent
  rw [splitAnchor_of_shape aid P C S r hP hC]
  rfl

/-- Helper: a successful write-mode injection on a well-formed block
replaces exactly the block content and updates the file. -/
theorem injectIntoFile_write_of_shape (fs : FS) (path aid r : String)
    (P C S newContent doc : List Line)
    (hfs : fs path = some doc)
    (hdoc : doc = P ++ [Line.startMarker aid r] ++ C ++
      [Line.endMarker aid] ++ S)
    (hP : ∀ l ∈ P, isStartFor aid l = false)
    (hC : ∀ l ∈ C, isEndFor aid l = false) :
    (injectIntoFile fs path aid newContent true).1.success = true ∧
    (injectIntoFile fs path aid newContent true).2 =
      FS.update fs path (P ++ [Line.startMarker aid r] ++ newContent ++
        [Line.endMarker aid] ++ S) := by
  subst hdoc
  unfold injectIntoFile
  simp only [hfs]
  rw [splitAnchor_of_shape aid P C S r hP hC]
  exact ⟨rfl, rfl⟩

/-- Helper: reading back a just-written file. -/
theorem FS.update_self (fs : FS) (p : String) (c : List Line) :
    FS.update fs p c p = some c := by
  simp [FS.update]

/-! ## Helper lemmas on the retry loop -/

/-- Helper: structural properties of `executeWithRetry`, proved by fuel
induction: all delays equal `delayMs`, one delay between consecutive calls,
at least one call, at most `maxAttempts - attempt + 1` calls, every
non-final call failed with a retryable error, and the result is the
outcome of the final call. -/
theorem executeWithRetry_props {α : Type} (oracle : Nat → Except AIError α)
    (maxAttempts delayMs : Nat) : ∀ (fuel attempt : Nat),
    maxAttempts - attempt ≤ fuel →
    (∀ d ∈ (executeWithRetry oracle maxAttempts delayMs attempt).delays,
        d = delayMs) ∧
    (executeWithRetry oracle maxAttempts delayMs attempt).delays.length =
      (executeWithRetry oracle maxAttempts delayMs attempt).attemptsUsed - 1 ∧
    1 ≤ (executeWithRetry oracle maxAttempts delayMs attempt).attemptsUsed ∧
    (executeWithRetry oracle maxAttempts delayMs attempt).attemptsUsed ≤
      maxAttempts - attempt + 1 ∧
    (∀ k, k + 1 <
        (executeWithRetry oracle maxAttempts delayMs attempt).attemptsUsed →
      ∃ e, oracle (attempt + k) = .error e ∧ isRetryableError e = true) ∧
    (executeWithRetry oracle maxAttempts delayMs attempt).result =
      oracle (attempt +
        ((executeWithRetry oracle maxAttempts delayMs attempt).attemptsUsed
          - 1)) := by
  intro fuel
  induction fuel with
  | zero =>
      intro attempt hle
      have hstop : ¬ attempt < maxAttempts := by omega
      cases hor : oracle attempt with
      | ok v =>
          simp [executeWithRetry, hor]
      | error e =>
          simp [executeWithRetry, hor, hstop]
  | succ n ih =>
      intro attempt hle
      cases hor : oracle attempt with
      | ok v =>
          simp [executeWithRetry, hor]
      | error e =>
          by_cases hc : isRetryableError e = true ∧ attempt < maxAttempts
          · obtain ⟨hd, hlen, hone, hbound, hretr, hres⟩ :=
              ih (attempt + 1) (by omega)
            have heq : executeWithRetry oracle maxAttempts delayMs attempt =
                ⟨(executeWithRetry oracle maxAttempts delayMs
                    (attempt + 1)).result,
                  (executeWithRetry oracle maxAttempts delayMs
                    (attempt + 1)).attemptsUsed + 1,
                  delayMs :: (executeWithRetry oracle maxAttempts delayMs
                    (attempt + 1)).delays⟩ := by
              rw [executeWithRetry]
              simp only [hor]
              rw [dif_pos hc]
            rw [heq]
            set t1 := executeWithRetry oracle maxAttempts delayMs (attempt + 1)
              with ht1
            refine ⟨?_, ?_, ?_, ?_, ?_, ?_⟩
            · intro d hd2
              rcases List.mem_cons.mp hd2 with h | h
              · exact h
              · exact hd d h
            · show (delayMs :: t1.delays).length = t1.attemptsUsed + 1 - 1
              rw [List.length_cons, hlen]
              omega
            · show 1 ≤ t1.attemptsUsed + 1
              omega
            · show t1.attemptsUsed + 1 ≤ maxAttempts - attempt + 1
              omega
            · intro k hk
              have hk2 : k + 1 < t1.attemptsUsed + 1 := hk
              cases k with
              | zero => exact ⟨e, by simpa using hor, hc.1⟩
              | succ k =>
                  have := hretr k (by omega)
                  simpa [Nat.add_assoc, Nat.add_comm 1 k] using this
            · show t1.result = oracle (attempt + (t1.attemptsUsed + 1 - 1))
              have h2 : attempt + (t1.attemptsUsed + 1 - 1) =
                  attempt + 1 + (t1.attemptsUsed - 1) := by omega
              rw [h2]
              exact hres
          · rw [executeWithRetry]
            simp [hor, hc]

/-! ## C1: `hasDrift` characterisation -/

/-- C1. For every map, entry id and current hash: `hasDrift id currentHash`
is true iff an entry with that id exists and its `codeSignatureHash` differs
from `currentHash`; when no entry with that id exists it returns false. -/
theorem hasDrift_iff_exists_entry_with_other_hash
    (entries : List DoctypeMapEntry) (id currentHash : String) :
    (hasDrift entries id currentHash = true ↔
      ∃ e, getEntryById entries id = some e ∧
        e.codeSignatureHash ≠ currentHash) ∧
    (getEntryById entries id = none →
      hasDrift entries id currentHash = false) := by
  constructor
  · constructor
    · intro h
      cases hfind : getEntryById entries id with
      | none => simp [hasDrift, hfind] at h
      | some e =>
          refine ⟨e, rfl, ?_⟩
          simpa [hasDrift, hfind, bne_iff_ne] using h
    · rintro ⟨e, hfind, hne⟩
      simpa [hasDrift, hfind, bne_iff_ne] using hne
  · intro hnone
    simp [hasDrift, hnone]

/-- Witness for C1: on a concrete one-entry map, an id that is absent yields
`hasDrift = false` through the theorem, and the drift test-scenario hashes
behave as stated. -/
theorem hasDrift_iff_exists_entry_with_other_hash_witness :
    hasDrift [{ id := "U1",
                codeRef := { filePath := "a.ts", symbolName := "f" },
                codeSignatureHash := "A",
                codeSignatureText := none,
                docRef := { filePath := "docs/a.md" } }] "U2" "B" = false :=
  (hasDrift_iff_exists_entry_with_other_hash _ "U2" "B").2 (by decide)

/-! ## C2: drift detector per-entry behaviour -/

/-- Counterexample for C2 as stated.  The analyzer finds the symbol and
reports the hash `""`, which differs from the stored hash `"H1"`; the claim
then demands exactly one DriftRecord, but `detectDrift` emits nothing: the
code's `if (!currentHash)` guard (drift-detector.ts lines 115-119) skips
any entry whose current hash is missing or empty. -/
theorem detectDrift_empty_hash_counterexample :
    ([({ symbolName := "f", symbolType := "function",
         signatureText := "fn f()", isExported := true,
         hash := some "" } : CodeSignature)].find?
      (fun s => s.symbolName ==
        ({ id := "U1", codeRef := { filePath := "a.ts", symbolName := "f" },
           codeSignatureHash := "H1", codeSignatureText := none,
           docRef := { filePath := "docs/a.md" } } :
          DoctypeMapEntry).codeRef.symbolName) =
      some { symbolName := "f", symbolType := "function",
             signatureText := "fn f()", isExported := true,
             hash := some "" }) ∧
    ("" : String) ≠ "H1" ∧
    detectDrift (fun _ p => p) (fun _ => true)
      (fun _ => .ok [{ symbolName := "f", symbolType := "function",
                       signatureText := "fn f()", isExported := true,
                       hash := some "" }])
      "."
      [{ id := "U1", codeRef := { filePath := "a.ts", symbolName := "f" },
         codeSignatureHash := "H1", codeSignatureText := none,
         docRef := { filePath := "docs/a.md" } }] =
      { drifts := [], missing := [] } := by
  decide

/-- C2 (amended).  For every map entry processed by drift detection: a
non-existing code file is emitted as missing with reason `file_not_found`;
an analyzer error for the entry contributes nothing (and, by the
concatenation property, does not prevent the other entries from being
processed); an existing file whose signatures hold no match for the entry's
symbol name is emitted as missing with reason `symbol_not_found`; when a
matching signature is found whose hash is present and non-empty, and the
entry is the map's entry for its id, a hash differing from the stored
`codeSignatureHash` emits exactly one `DriftInfo` whose `currentHash` is
the analyzer's hash and whose `oldHash` is the stored hash, with
`oldSignature` reconstructed from `codeSignatureText` when present, while
a matching hash emits nothing. -/
theorem detectDrift_per_entry_spec (resolveP : String → String → String)
    (existsFile : String → Bool)
    (analyzeFile : String → Except String (List CodeSignature))
    (basePath : String) (mapEntries : List DoctypeMapEntry)
    (e : DoctypeMapEntry) :
    (existsFile (resolveP basePath e.codeRef.filePath) = false →
      detectEntry resolveP existsFile analyzeFile basePath mapEntries e =
        .missingInfo ⟨e, .file_not_found,
          resolveP basePath e.codeRef.filePath⟩) ∧
    (∀ msg, existsFile (resolveP basePath e.codeRef.filePath) = true →
      analyzeFile (resolveP basePath e.codeRef.filePath) = .error msg →
      detectEntry resolveP existsFile analyzeFile basePath mapEntries e =
        .nothing) ∧
    (∀ sigs, existsFile (resolveP basePath e.codeRef.filePath) = true →
      analyzeFile (resolveP basePath e.codeRef.filePath) = .ok sigs →
      sigs.find? (fun s => s.symbolName == e.codeRef.symbolName) = none →
      detectEntry resolveP existsFile analyzeFile basePath mapEntries e =
        .missingInfo ⟨e, .symbol_not_found,
          resolveP basePath e.codeRef.filePath⟩) ∧
    (∀ sigs cur h,
      existsFile (resolveP basePath e.codeRef.filePath) = true →
      analyzeFile (resolveP basePath e.codeRef.filePath) = .ok sigs →
      sigs.find? (fun s => s.symbolName == e.codeRef.symbolName) =
        some cur →
      cur.hash = some h → h ≠ "" →
      getEntryById mapEntries e.id = some e →
      ((h ≠ e.codeSignatureHash →
        detectEntry resolveP existsFile analyzeFile basePath mapEntries e =
          .drift ⟨e, e.codeSignatureText.map (fun t =>
              ⟨e.codeRef.symbolName, cur.symbolType, t, cur.isExported,
                none⟩),
            cur, h, e.codeSignatureHash⟩) ∧
       (h = e.codeSignatureHash →
        detectEntry resolveP existsFile analyzeFile basePath mapEntries e =
          .nothing))) ∧
    (∀ l1 l2,
      detectDriftAux resolveP existsFile analyzeFile basePath mapEntries
          (l1 ++ l2) =
        ⟨(detectDriftAux resolveP existsFile analyzeFile basePath mapEntries
            l1).drifts ++
          (detectDriftAux resolveP existsFile analyzeFile basePath
            mapEntries l2).drifts,
         (detectDriftAux resolveP existsFile analyzeFile basePath mapEntries
            l1).missing ++
          (detectDriftAux resolveP existsFile analyzeFile basePath
            mapEntries l2).missing⟩) := by
  refine ⟨?_, ?_, ?_, ?_, ?_⟩
  · intro hex
    simp [detectEntry, hex]
  · intro msg hex herr
    simp [detectEntry, hex, herr]
  · intro sigs hex hok hfind
    simp [detectEntry, hex, hok, hfind]
  · intro sigs cur h hex hok hfind hhash hne hid
    have hdr : hasDrift mapEntries e.id h = (e.codeSignatureHash != h) := by
      simp [hasDrift, hid]
    constructor
    · intro hdiff
      have : (e.codeSignatureHash != h) = true :=
        bne_iff_ne.mpr (fun hc => hdiff hc.symm)
      simp [detectEntry, hex, hok, hfind, hhash, hne, hdr, this]
    · intro heq
      have : (e.codeSignatureHash != h) = false := by
        simp [bne_iff_ne, heq]
      simp [detectEntry, hex, hok, hfind, hhash, hne, hdr, this]
  · intro l1 l2
    simp [detectDriftAux, List.filterMap_append]

/-- Witness for C2: the spec scenario — map entry `U1` for `a.ts#f` with
stored hash `"H1"`, analyzer now reporting `f` with hash `"H2"` — emits
exactly one drift with `currentHash = "H2"` and `oldHash = "H1"`. -/
theorem detectDrift_per_entry_spec_witness :
    detectEntry (fun _ p => p) (fun _ => true)
      (fun _ => .ok [{ symbolName := "f", symbolType := "function",
                       signatureText := "fn f(x: int)", isExported := true,
                       hash := some "H2" }])
      "."
      [{ id := "U1", codeRef := { filePath := "a.ts", symbolName := "f" },
         codeSignatureHash := "H1", codeSignatureText := none,
         docRef := { filePath := "docs/a.md" } }]
      { id := "U1", codeRef := { filePath := "a.ts", symbolName := "f" },
        codeSignatureHash := "H1", codeSignatureText := none,
        docRef := { filePath := "docs/a.md" } } =
      .drift ⟨{ id := "U1",
                codeRef := { filePath := "a.ts", symbolName := "f" },
                codeSignatureHash := "H1", codeSignatureText := none,
                docRef := { filePath := "docs/a.md" } },
        none,
        { symbolName := "f", symbolType := "function",
          signatureText := "fn f(x: int)", isExported := true,
          hash := some "H2" }, "H2", "H1"⟩ := by
  have h := (detectDrift_per_entry_spec (fun _ p => p) (fun _ => true)
    (fun _ => .ok [{ symbolName := "f", symbolType := "function",
                     signatureText := "fn f(x: int)", isExported := true,
                     hash := some "H2" }])
    "."
    [{ id := "U1", codeRef := { filePath := "a.ts", symbolName := "f" },
       codeSignatureHash := "H1", codeSignatureText := none,
       docRef := { filePath := "docs/a.md" } }]
    { id := "U1", codeRef := { filePath := "a.ts", symbolName := "f" },
      codeSignatureHash := "H1", codeSignatureText := none,
      docRef := { filePath := "docs/a.md" } }).2.2.2.1
    [{ symbolName := "f", symbolType := "function",
       signatureText := "fn f(x: int)", isExported := true,
       hash := some "H2" }]
    { symbolName := "f", symbolType := "function",
      signatureText := "fn f(x: int)", isExported := true,
      hash := some "H2" }
    "H2" rfl rfl (by decide) rfl (by decide) (by decide)
  exact h.1 (by decide)

/-! ## C9: extract-then-inject round trip -/

/-- C9. For every well-formed anchor block (first start marker for the id
is the block's own, and the content holds no end marker for the id),
extracting the anchor content and injecting it back under the same id
reproduces the original document exactly — the injected body is the text
before the start marker, the unchanged start marker line, the content, the
unchanged end marker line, and the unchanged text after the end marker —
hence also byte-for-byte after rendering. -/
theorem extract_then_inject_roundtrip (aid r : String) (P C S : List Line)
    (hP : ∀ l ∈ P, isStartFor aid l = false)
    (hC : ∀ l ∈ C, isEndFor aid l = false) :
    extractAnchorContent
        (P ++ [Line.startMarker aid r] ++ C ++ [Line.endMarker aid] ++ S)
        aid = some C ∧
    injectContent
        (P ++ [Line.startMarker aid r] ++ C ++ [Line.endMarker aid] ++ S)
        aid C =
      some (P ++ [Line.startMarker aid r] ++ C ++ [Line.endMarker aid] ++ S) ∧
    (injectContent
        (P ++ [Line.startMarker aid r] ++ C ++ [Line.endMarker aid] ++ S)
        aid C).map renderDoc =
      some (renderDoc
        (P ++ [Line.startMarker aid r] ++ C ++ [Line.endMarker aid] ++ S)) := by
  have hsplit := splitAnchor_of_shape aid P C S r hP hC
  refine ⟨?_, ?_, ?_⟩
  · unfold extractAnchorContent
    rw [hsplit]
    rfl
  · unfold injectContent
    rw [hsplit]
    rfl
  · unfold injectContent
    rw [hsplit]
    rfl

/-- Witness for C9: a concrete two-line document with one anchor block
round-trips through extraction and injection. -/
theorem extract_then_inject_roundtrip_witness :
    extractAnchorContent
        ([Line.text "# Title"] ++ [Line.startMarker "id1" "src/a.ts#f"] ++
          [Line.text "  body"] ++ [Line.endMarker "id1"] ++ [])
        "id1" = some [Line.text "  body"] ∧
    injectContent
        ([Line.text "# Title"] ++ [Line.startMarker "id1" "src/a.ts#f"] ++
          [Line.text "  body"] ++ [Line.endMarker "id1"] ++ [])
        "id1" [Line.text "  body"] =
      some ([Line.text "# Title"] ++ [Line.startMarker "id1" "src/a.ts#f"] ++
        [Line.text "  body"] ++ [Line.endMarker "id1"] ++ []) := by
  have h := extract_then_inject_roundtrip "id1" "src/a.ts#f"
    [Line.text "# Title"] [Line.text "  body"] []
    (by decide) (by decide)
  exact ⟨h.1, h.2.1⟩

/-! ## C8: serialized same-file injections lose no update -/

/-- C8. Two DriftRecords targeting the same documentation file, processed
concurrently, have their injections serialized by the per-file lock: in
whichever order the two atomic read-modify-write sections run, the final
file contains both injected contents — no lost update.  (The `FileMutex`
implementation is not in the corpus; serialization is modelled, per the
spec, by executing the two locked sections in one of the two orders.) -/
theorem serialized_injections_no_lost_update (fs : FS)
    (path a1 a2 r1 r2 : String) (p0 c01 p1 c02 p2 c1 c2 : List Line)
    (hne : a1 ≠ a2)
    (hfs : fs path = some (p0 ++ [Line.startMarker a1 r1] ++ c01 ++
      [Line.endMarker a1] ++ (p1 ++ [Line.startMarker a2 r2] ++ c02 ++
        [Line.endMarker a2] ++ p2)))
    (hp0a1 : ∀ l ∈ p0, isStartFor a1 l = false)
    (hc01a1 : ∀ l ∈ c01, isEndFor a1 l = false)
    (hp0a2 : ∀ l ∈ p0, isStartFor a2 l = false)
    (hc01a2 : ∀ l ∈ c01, isStartFor a2 l = false)
    (hp1a2 : ∀ l ∈ p1, isStartFor a2 l = false)
    (hc02a2 : ∀ l ∈ c02, isEndFor a2 l = false)
    (hc1 : ∀ l ∈ c1, isTextLine l = true)
    (hc2 : ∀ l ∈ c2, isTextLine l = true)
    (tasks : List (String × List Line))
    (htasks : tasks = [(a1, c1), (a2, c2)] ∨ tasks = [(a2, c2), (a1, c1)]) :
    ∃ doc, runSerialInjections fs path tasks path = some doc ∧
      extractAnchorContent doc a1 = some c1 ∧
      extractAnchorContent doc a2 = some c2 := by
  -- text lines are marker-free
  have hc1s2 : ∀ l ∈ c1, isStartFor a2 l = false :=
    fun l hl => isStartFor_of_text a2 l (hc1 l hl)
  have hc1e1 : ∀ l ∈ c1, isEndFor a1 l = false :=
    fun l hl => isEndFor_of_text a1 l (hc1 l hl)
  have hc2e2 : ∀ l ∈ c2, isEndFor a2 l = false :=
    fun l hl => isEndFor_of_text a2 l (hc2 l hl)
  -- the prefix of the a2 block is start-marker-free for a2, whatever the
  -- a1 block currently holds (original content c01 or injected content c1)
  have hpre2 : ∀ (mid : List Line), (∀ l ∈ mid, isStartFor a2 l = false) →
      ∀ l ∈ p0 ++ [Line.startMarker a1 r1] ++ mid ++
        [Line.endMarker a1] ++ p1, isStartFor a2 l = false := by
    intro mid hmid l hl
    simp only [List.append_assoc, List.mem_append, List.mem_singleton] at hl
    rcases hl with h | h | h | h | h
    · exact hp0a2 l h
    · rw [h]; exact isStartFor_startMarker_ne a1 a2 r1 hne
    · exact hmid l h
    · rw [h]; exact isStartFor_endMarker a1 a2
    · exact hp1a2 l h
  rcases htasks with h | h <;> subst h
  · -- order: a1 first, then a2
    have step1 := injectIntoFile_write_of_shape fs path a1 r1 p0 c01
      (p1 ++ [Line.startMarker a2 r2] ++ c02 ++ [Line.endMarker a2] ++ p2)
      c1 _ hfs (by simp) hp0a1 hc01a1
    have hfs1 : (injectIntoFile fs path a1 c1 true).2 path =
        some (p0 ++ [Line.startMarker a1 r1] ++ c1 ++ [Line.endMarker a1] ++
          (p1 ++ [Line.startMarker a2 r2] ++ c02 ++ [Line.endMarker a2] ++ p2)) := by
      rw [step1.2]
      exact FS.update_self _ _ _
    have step2 := injectIntoFile_write_of_shape
      (injectIntoFile fs path a1 c1 true).2 path a2 r2
      (p0 ++ [Line.startMarker a1 r1] ++ c1 ++ [Line.endMarker a1] ++ p1)
      c02 p2 c2 _ hfs1 (by simp) (hpre2 c1 hc1s2) hc02a2
    refine ⟨p0 ++ [Line.startMarker a1 r1] ++ c1 ++ [Line.endMarker a1] ++
      (p1 ++ [Line.startMarker a2 r2] ++ c2 ++ [Line.endMarker a2] ++ p2),
      ?_, ?_, ?_⟩
    · show (injectIntoFile (injectIntoFile fs path a1 c1 true).2
        path a2 c2 true).2 path = _
      rw [step2.2, FS.update_self]
      simp
    · exact extractAnchorContent_of_shape a1 r1 p0 c1
        (p1 ++ [Line.startMarker a2 r2] ++ c2 ++ [Line.endMarker a2] ++ p2)
        _ rfl hp0a1 hc1e1
    · exact extractAnchorContent_of_shape a2 r2
        (p0 ++ [Line.startMarker a1 r1] ++ c1 ++ [Line.endMarker a1] ++ p1)
        c2 p2 _ (by simp) (hpre2 c1 hc1s2) hc2e2
  · -- order: a2 first, then a1
    have step1 := injectIntoFile_write_of_shape fs path a2 r2
      (p0 ++ [Line.startMarker a1 r1] ++ c01 ++ [Line.endMarker a1] ++ p1)
      c02 p2 c2 _ hfs (by simp) (hpre2 c01 hc01a2) hc02a2
    have hfs1 : (injectIntoFile fs path a2 c2 true).2 path =
        some (p0 ++ [Line.startMarker a1 r1] ++ c01 ++ [Line.endMarker a1] ++
          (p1 ++ [Line.startMarker a2 r2] ++ c2 ++ [Line.endMarker a2] ++ p2)) := by
      rw [step1.2, FS.update_self]
      simp
    have step2 := injectIntoFile_write_of_shape
      (injectIntoFile fs path a2 c2 true).2 path a1 r1 p0 c01
      (p1 ++ [Line.startMarker a2 r2] ++ c2 ++ [Line.endMarker a2] ++ p2)
      c1 _ hfs1 rfl hp0a1 hc01a1
    refine ⟨p0 ++ [Line.startMarker a1 r1] ++ c1 ++ [Line.endMarker a1] ++
      (p1 ++ [Line.startMarker a2 r2] ++ c2 ++ [Line.endMarker a2] ++ p2),
      ?_, ?_, ?_⟩
    · show (injectIntoFile (injectIntoFile fs path a2 c2 true).2
        path a1 c1 true).2 path = _
      rw [step2.2, FS.update_self]
    · exact extractAnchorContent_of_shape a1 r1 p0 c1
        (p1 ++ [Line.startMarker a2 r2] ++ c2 ++ [Line.endMarker a2] ++ p2)
        _ rfl hp0a1 hc1e1
    · exact extractAnchorContent_of_shape a2 r2
        (p0 ++ [Line.startMarker a1 r1] ++ c1 ++ [Line.endMarker a1] ++ p1)
        c2 p2 _ (by simp) (hpre2 c1 hc1s2) hc2e2

/-- Witness for C8: a concrete file with two anchor blocks, injected in the
first serialization order, ends up containing both new contents. -/
theorem serialized_injections_no_lost_update_witness :
    ∃ doc,
      runSerialInjections
        (fun q => if q == "docs/a.md" then
          some ([Line.text "h"] ++ [Line.startMarker "a1" "r1"] ++
            [Line.text "old1"] ++ [Line.endMarker "a1"] ++
            ([Line.text "mid"] ++ [Line.startMarker "a2" "r2"] ++
              [Line.text "old2"] ++ [Line.endMarker "a2"] ++
              [Line.text "tail"]))
          else none)
        "docs/a.md"
        [("a1", [Line.text "new1"]), ("a2", [Line.text "new2"])]
        "docs/a.md" = some doc ∧
      extractAnchorContent doc "a1" = some [Line.text "new1"] ∧
      extractAnchorContent doc "a2" = some [Line.text "new2"] :=
  serialized_injections_no_lost_update _ "docs/a.md" "a1" "a2" "r1" "r2"
    [Line.text "h"] [Line.text "old1"] [Line.text "mid"] [Line.text "old2"]
    [Line.text "tail"] [Line.text "new1"] [Line.text "new2"]
    (by decide) rfl
    (by decide) (by decide) (by decide) (by decide) (by decide) (by decide)
    (by decide) (by decide)
    [("a1", [Line.text "new1"]), ("a2", [Line.text "new2"])] (Or.inl rfl)

/-! ## C6: retry wrapper behaviour -/

/-- C6. For every generation call made through the retry wrapper: a failure
classified as `TIMEOUT`, `RATE_LIMIT` or `NETWORK_ERROR` while attempts
remain really is retried — the run sleeps exactly one fixed `delayMs` and
then continues as the run starting at the next attempt, so at least one
further provider call is made; every delay of a run equals `delayMs`; the
number of provider calls is bounded by the maximum attempt count; every
non-final call failed with a classified-retryable error; and any other
failure is raised immediately after a single call with no delay. -/
theorem executeWithRetry_retries_only_classified_failures {α : Type}
    (oracle : Nat → Except AIError α) (maxAttempts delayMs : Nat) :
    (∀ (attempt : Nat) (e : AIError), oracle attempt = .error e →
      isRetryableError e = true → attempt < maxAttempts →
      executeWithRetry oracle maxAttempts delayMs attempt =
        ⟨(executeWithRetry oracle maxAttempts delayMs
            (attempt + 1)).result,
          (executeWithRetry oracle maxAttempts delayMs
            (attempt + 1)).attemptsUsed + 1,
          delayMs :: (executeWithRetry oracle maxAttempts delayMs
            (attempt + 1)).delays⟩) ∧
    (∀ (attempt : Nat) (e : AIError), oracle attempt = .error e →
      isRetryableError e = true → attempt < maxAttempts →
      2 ≤ (executeWithRetry oracle maxAttempts delayMs
        attempt).attemptsUsed) ∧
    (∀ e, oracle 1 = .error e → isRetryableError e = false →
      executeWithRetry oracle maxAttempts delayMs 1 =
        ⟨.error e, 1, []⟩) ∧
    (∀ d ∈ (executeWithRetry oracle maxAttempts delayMs 1).delays,
      d = delayMs) ∧
    (executeWithRetry oracle maxAttempts delayMs 1).attemptsUsed ≤
      max maxAttempts 1 ∧
    (∀ k, k + 1 <
        (executeWithRetry oracle maxAttempts delayMs 1).attemptsUsed →
      ∃ e, oracle (1 + k) = .error e ∧ isRetryableError e = true) := by
  have hstep : ∀ (attempt : Nat) (e : AIError), oracle attempt = .error e →
      isRetryableError e = true → attempt < maxAttempts →
      executeWithRetry oracle maxAttempts delayMs attempt =
        ⟨(executeWithRetry oracle maxAttempts delayMs
            (attempt + 1)).result,
          (executeWithRetry oracle maxAttempts delayMs
            (attempt + 1)).attemptsUsed + 1,
          delayMs :: (executeWithRetry oracle maxAttempts delayMs
            (attempt + 1)).delays⟩ := by
    intro attempt e hor hretr hlt
    rw [executeWithRetry]
    simp only [hor]
    rw [dif_pos ⟨hretr, hlt⟩]
  obtain ⟨hd, _hlen, hone, hbound, hretr, _hres⟩ :=
    executeWithRetry_props oracle maxAttempts delayMs (maxAttempts - 1) 1
      (Nat.le_refl _)
  refine ⟨hstep, ?_, ?_, hd, by omega, hretr⟩
  · intro attempt e hor hretr2 hlt
    obtain ⟨_, _, hone2, _, _, _⟩ :=
      executeWithRetry_props oracle maxAttempts delayMs
        (maxAttempts - (attempt + 1)) (attempt + 1) (Nat.le_refl _)
    rw [hstep attempt e hor hretr2 hlt]
    exact Nat.succ_le_succ hone2
  · intro e hor hnotr
    rw [executeWithRetry]
    simp [hor, hnotr]

/-- Witness for C6: a `RATE_LIMIT` failure on the first provider call is
actually retried — the wrapper sleeps 1000 ms once, calls the provider a
second time and returns its success, for two calls in total. -/
theorem executeWithRetry_retries_only_classified_failures_witness :
    executeWithRetry
      (fun a => if a == 1 then
        (Except.error (AIError.provider (some "RATE_LIMIT") "slow down") :
          Except AIError String)
        else .ok "done")
      3 1000 1 = ⟨.ok "done", 2, [1000]⟩ := by
  have h := (executeWithRetry_retries_only_classified_failures
    (fun a => if a == 1 then
      (Except.error (AIError.provider (some "RATE_LIMIT") "slow down") :
        Except AIError String)
      else .ok "done")
    3 1000).1 1 (AIError.provider (some "RATE_LIMIT") "slow down")
    rfl rfl (by decide)
  rw [h]
  have h2 : executeWithRetry
      (fun a => if a == 1 then
        (Except.error (AIError.provider (some "RATE_LIMIT") "slow down") :
          Except AIError String)
        else .ok "done")
      3 1000 2 = ⟨.ok "done", 1, []⟩ := by
    rw [executeWithRetry]
    rfl
  rw [h2]

/-! ## Helper lemmas on the fix orchestrator -/

/-- Helper: every generation task yields a success-shaped result carrying
its own drift. -/
theorem generateTask_fields (useAI : Bool)
    (genOracle : DriftInfo → Except String (List Line)) (d : DriftInfo) :
    (generateTask useAI genOracle d).success = true ∧
    (generateTask useAI genOracle d).drift = d := by
  unfold generateTask
  cases useAI with
  | false => exact ⟨rfl, rfl⟩
  | true =>
      cases genOracle d with
      | ok c => exact ⟨rfl, rfl⟩
      | error msg => exact ⟨rfl, rfl⟩

/-- Helper: inserting a result into the file groups grows the total number
of held results by one. -/
theorem groupInsert_size (k : String) (r : GenerationResult)
    (gs : List (String × List GenerationResult)) :
    groupsSize (groupInsert k r gs) = groupsSize gs + 1 := by
  induction gs with
  | nil => simp [groupInsert, groupsSize]
  | cons g rest ih =>
      obtain ⟨k2, rs⟩ := g
      by_cases h : k2 == k
      · simp [groupInsert, h, groupsSize]
        omega
      · simp only [groupInsert, h, if_false, Bool.false_eq_true]
        simp [groupsSize] at ih ⊢
        omega

/-- Helper: grouping preserves the total number of generation results. -/
theorem groupByFile_size (resolveP : String → String → String)
    (projectBase : String) (results : List GenerationResult) :
    groupsSize (groupByFile resolveP projectBase results) =
      results.length := by
  suffices h : ∀ acc, groupsSize (results.foldl
      (fun acc r =>
        groupInsert (resolveP projectBase r.drift.entry.docRef.filePath)
          r acc) acc) = groupsSize acc + results.length by
    simpa [groupByFile, groupsSize] using h []
  induction results with
  | nil => intro acc; simp
  | cons r rest ih =>
      intro acc
      simp only [List.foldl_cons, List.length_cons]
      rw [ih, groupInsert_size]
      omega

/-- Helper: one application-loop iteration appends exactly one outcome and
bumps the failure counter exactly when that outcome failed. -/
theorem applyResult_char (options : FixOptions) (docPath : String)
    (st : OrchState) (res : GenerationResult) :
    ∃ d : FixDetail,
      (applyResult options docPath st res).fixes = st.fixes ++ [d] ∧
      (applyResult options docPath st res).failCount =
        st.failCount + (if d.success = true then 0 else 1) := by
  by_cases hres : res.success = false
  · refine ⟨mkFixDetail res.drift.entry false none res.error, ?_, ?_⟩
    · simp [applyResult, hres]
    · simp [applyResult, hres, mkFixDetail]
  · have hres2 : res.success = true := by
      cases h : res.success
      · exact absurd h hres
      · rfl
    by_cases hdry : options.dryRun = true
    · by_cases hsucc :
        (injectIntoFile st.fs docPath res.drift.entry.id res.content
          false).1.success = true
      · refine ⟨mkFixDetail res.drift.entry true (some res.content) none,
          ?_, ?_⟩
        · simp [applyResult, hres2, hdry, hsucc]
        · simp [applyResult, hres2, hdry, hsucc, mkFixDetail]
      · have hsucc2 : (injectIntoFile st.fs docPath res.drift.entry.id
            res.content false).1.success = false := by
          cases h : (injectIntoFile st.fs docPath res.drift.entry.id
              res.content false).1.success
          · rfl
          · exact absurd h hsucc
        refine ⟨mkFixDetail res.drift.entry false none
          (injectIntoFile st.fs docPath res.drift.entry.id res.content
            false).1.error, ?_, ?_⟩
        · simp [applyResult, hres2, hdry, hsucc2]
        · simp [applyResult, hres2, hdry, hsucc2, mkFixDetail]
    · have hdry2 : options.dryRun = false := by
        cases h : options.dryRun
        · rfl
        · exact absurd h hdry
      by_cases hsucc :
        (injectIntoFile st.fs docPath res.drift.entry.id res.content
          true).1.success = true
      · cases hupd : updateEntry st.mapMem res.drift.entry.id
            (res.drift.currentSignature.hash.getD "")
            (some res.drift.currentSignature.signatureText) with
        | ok m =>
            refine ⟨mkFixDetail res.drift.entry true (some res.content)
              none, ?_, ?_⟩
            · simp [applyResult, hres2, hdry2, hsucc, hupd]
            · simp [applyResult, hres2, hdry2, hsucc, hupd, mkFixDetail]
        | error msg =>
            refine ⟨mkFixDetail res.drift.entry false none (some msg),
              ?_, ?_⟩
            · simp [applyResult, hres2, hdry2, hsucc, hupd]
            · simp [applyResult, hres2, hdry2, hsucc, hupd, mkFixDetail]
      · have hsucc2 : (injectIntoFile st.fs docPath res.drift.entry.id
            res.content true).1.success = false := by
          cases h : (injectIntoFile st.fs docPath res.drift.entry.id
              res.content true).1.success
          · rfl
          · exact absurd h hsucc
        refine ⟨mkFixDetail res.drift.entry false none
          (injectIntoFile st.fs docPath res.drift.entry.id res.content
            true).1.error, ?_, ?_⟩
        · simp [applyResult, hres2, hdry2, hsucc2]
        · simp [applyResult, hres2, hdry2, hsucc2, mkFixDetail]

/-- Helper: folding the application loop over a bucket of generation
results appends one outcome per result, and the failure counter counts
exactly the failed appended outcomes. -/
theorem foldApply_char (options : FixOptions) (docPath : String)
    (rs : List GenerationResult) : ∀ (st : OrchState),
    ∃ ds : List FixDetail,
      (rs.foldl (applyResult options docPath) st).fixes =
        st.fixes ++ ds ∧
      ds.length = rs.length ∧
      (rs.foldl (applyResult options docPath) st).failCount =
        st.failCount +
          (ds.filter (fun f => f.success = false)).length := by
  induction rs with
  | nil => intro st; exact ⟨[], by simp, by simp, by simp⟩
  | cons r rest ih =>
      intro st
      obtain ⟨d, hfix, hfail⟩ := applyResult_char options docPath st r
      obtain ⟨ds, hfix2, hlen2, hfail2⟩ :=
        ih (applyResult options docPath st r)
      refine ⟨d :: ds, ?_, by simp [hlen2], ?_⟩
      · simp [hfix2, hfix]
      · rw [List.foldl_cons] at *
        rw [hfail2, hfail]
        by_cases hds : d.success = true
        · simp [List.filter, hds]
        · simp only [Bool.not_eq_true] at hds
          simp [List.filter, hds]
          omega

/-- Helper: folding the application loop over all file groups appends one
outcome per held result, with the failure counter counting the failed
ones. -/
theorem foldGroups_char (options : FixOptions)
    (groups : List (String × List GenerationResult)) : ∀ (st : OrchState),
    ∃ ds : List FixDetail,
      (groups.foldl (fun st g => g.2.foldl (applyResult options g.1) st)
        st).fixes = st.fixes ++ ds ∧
      ds.length = groupsSize groups ∧
      (groups.foldl (fun st g => g.2.foldl (applyResult options g.1) st)
        st).failCount =
        st.failCount +
          (ds.filter (fun f => f.success = false)).length := by
  induction groups with
  | nil => intro st; exact ⟨[], by simp, by simp [groupsSize], by simp⟩
  | cons g rest ih =>
      intro st
      obtain ⟨ds1, hfix1, hlen1, hfail1⟩ := foldApply_char options g.1 g.2 st
      obtain ⟨ds2, hfix2, hlen2, hfail2⟩ :=
        ih (g.2.foldl (applyResult options g.1) st)
      refine ⟨ds1 ++ ds2, ?_, ?_, ?_⟩
      · simp only [List.foldl_cons]
        rw [hfix2, hfix1, List.append_assoc]
      · simp [hlen1, hlen2, groupsSize]
      · simp only [List.foldl_cons]
        rw [hfail2, hfail1, List.filter_append, List.length_append]
        omega

/-- Helper: a preview-mode injection (`writeToFile = false`) never touches
the file system, whatever happens. -/
theorem injectIntoFile_nowrite_fs (fs : FS) (path aid : String)
    (c : List Line) : (injectIntoFile fs path aid c false).2 = fs := by
  unfold injectIntoFile
  cases hp : fs path with
  | none => rfl
  | some doc =>
      cases hs : splitAnchor doc aid with
      | none => simp [hs]
      | some s => simp [hs]

/-- Helper: a preview-mode injection on a well-formed block succeeds. -/
theorem injectIntoFile_nowrite_of_shape (fs : FS) (path aid r : String)
    (P C S newContent doc : List Line)
    (hfs : fs path = some doc)
    (hdoc : doc = P ++ [Line.startMarker aid r] ++ C ++
      [Line.endMarker aid] ++ S)
    (hP : ∀ l ∈ P, isStartFor aid l = false)
    (hC : ∀ l ∈ C, isEndFor aid l = false) :
    (injectIntoFile fs path aid newContent false).1.success = true := by
  subst hdoc
  unfold injectIntoFile
  simp only [hfs]
  rw [splitAnchor_of_shape aid P C S r hP hC]

/-- Helper: one dry-run application-loop iteration on a successful
generation whose injection succeeds records a success outcome and leaves
the map untouched. -/
theorem applyResult_dryRun_success_eq (options : FixOptions)
    (docPath : String) (st : OrchState) (res : GenerationResult)
    (hdry : options.dryRun = true) (hres : res.success = true)
    (hinj : (injectIntoFile st.fs docPath res.drift.entry.id res.content
      false).1.success = true) :
    applyResult options docPath st res =
      { st with
          fs := (injectIntoFile st.fs docPath res.drift.entry.id
            res.content false).2,
          successCount := st.successCount + 1,
          fixes := st.fixes ++
            [mkFixDetail res.drift.entry true (some res.content) none] } := by
  simp [applyResult, hres, hdry, hinj]

/-! ## C4: aggregation of the fix result -/

/-- C4. For every fix run: `totalFixes` equals the number of per-item
outcomes, `failedFixes` counts exactly the failed outcomes, `success` is
true iff `failedFixes` is zero, and the outcome of the optional post-phase
version-control commit has no influence on the returned `FixResult` (in
particular a commit failure does not change `success`). -/
theorem executeFixes_aggregation (drifts : List DriftInfo)
    (mapState : MapState) (options : FixOptions) (useAI : Bool)
    (genOracle : DriftInfo → Except String (List Line))
    (resolveP : String → String → String) (projectBase mapPath : String)
    (fs : FS)
    (commitOracle commitOracle2 :
      List String → List String → Bool → CommitResult) :
    (executeFixes drifts mapState options useAI genOracle resolveP
      projectBase mapPath fs commitOracle).1.totalFixes =
      (executeFixes drifts mapState options useAI genOracle resolveP
        projectBase mapPath fs commitOracle).1.fixes.length ∧
    (executeFixes drifts mapState options useAI genOracle resolveP
      projectBase mapPath fs commitOracle).1.failedFixes =
      ((executeFixes drifts mapState options useAI genOracle resolveP
        projectBase mapPath fs commitOracle).1.fixes.filter
          (fun f => f.success = false)).length ∧
    ((executeFixes drifts mapState options useAI genOracle resolveP
      projectBase mapPath fs commitOracle).1.success = true ↔
      (executeFixes drifts mapState options useAI genOracle resolveP
        projectBase mapPath fs commitOracle).1.failedFixes = 0) ∧
    (executeFixes drifts mapState options useAI genOracle resolveP
      projectBase mapPath fs commitOracle2).1 =
      (executeFixes drifts mapState options useAI genOracle resolveP
        projectBase mapPath fs commitOracle).1 := by
  obtain ⟨ds, hfix, hlen, hfail⟩ := foldGroups_char options
    (groupByFile resolveP projectBase
      (drifts.map (generateTask useAI genOracle)))
    ⟨fs, mapState.mem, 0, 0, []⟩
  have hfailed : (executeFixes drifts mapState options useAI genOracle
      resolveP projectBase mapPath fs commitOracle).1.failedFixes =
      (List.foldl
        (fun (st : OrchState) (g : String × List GenerationResult) =>
          g.2.foldl (applyResult options g.1) st)
        (⟨fs, mapState.mem, 0, 0, []⟩ : OrchState)
        (groupByFile resolveP projectBase
          (drifts.map (generateTask useAI genOracle)))).failCount := rfl
  have hfixes : (executeFixes drifts mapState options useAI genOracle
      resolveP projectBase mapPath fs commitOracle).1.fixes =
      (List.foldl
        (fun (st : OrchState) (g : String × List GenerationResult) =>
          g.2.foldl (applyResult options g.1) st)
        (⟨fs, mapState.mem, 0, 0, []⟩ : OrchState)
        (groupByFile resolveP projectBase
          (drifts.map (generateTask useAI genOracle)))).fixes := rfl
  have hsucceq : (executeFixes drifts mapState options useAI genOracle
      resolveP projectBase mapPath fs commitOracle).1.success =
      ((executeFixes drifts mapState options useAI genOracle resolveP
        projectBase mapPath fs commitOracle).1.failedFixes == 0) := rfl
  refine ⟨rfl, ?_, ?_, rfl⟩
  · rw [hfailed, hfixes, hfail, hfix]
    simp
  · rw [hsucceq]
    simp

/-! ## C3: generation failures are isolated -/

/-- C3. For every list of N drifted entries given to `executeFixes`, the
run produces exactly N per-item outcomes whatever the generation oracle
does, and an entry whose AI generation fails after the bounded retries
receives the deterministic placeholder content (built from its symbol name
and current signature text) in a success-shaped generation result that is
processed by the application phase like every other. -/
theorem executeFixes_generation_failure_isolated (drifts : List DriftInfo)
    (mapState : MapState) (options : FixOptions) (useAI : Bool)
    (genOracle : DriftInfo → Except String (List Line))
    (resolveP : String → String → String) (projectBase mapPath : String)
    (fs : FS)
    (commitOracle : List String → List String → Bool → CommitResult) :
    (executeFixes drifts mapState options useAI genOracle resolveP
      projectBase mapPath fs commitOracle).1.totalFixes = drifts.length ∧
    (executeFixes drifts mapState options useAI genOracle resolveP
      projectBase mapPath fs commitOracle).1.fixes.length =
      drifts.length ∧
    (∀ d msg, genOracle d = .error msg →
      generateTask true genOracle d =
        ⟨d, generatePlaceholderContent d.entry.codeRef.symbolName
          d.currentSignature.signatureText, true, none⟩) := by
  obtain ⟨ds, hfix, hlen, hfail⟩ := foldGroups_char options
    (groupByFile resolveP projectBase
      (drifts.map (generateTask useAI genOracle)))
    ⟨fs, mapState.mem, 0, 0, []⟩
  have hsize := groupByFile_size resolveP projectBase
    (drifts.map (generateTask useAI genOracle))
  have hfixes : (executeFixes drifts mapState options useAI genOracle
      resolveP projectBase mapPath fs commitOracle).1.fixes =
      (List.foldl
        (fun (st : OrchState) (g : String × List GenerationResult) =>
          g.2.foldl (applyResult options g.1) st)
        (⟨fs, mapState.mem, 0, 0, []⟩ : OrchState)
        (groupByFile resolveP projectBase
          (drifts.map (generateTask useAI genOracle)))).fixes := rfl
  have hcount : (executeFixes drifts mapState options useAI genOracle
      resolveP projectBase mapPath fs commitOracle).1.fixes.length =
      drifts.length := by
    rw [hfixes, hfix]
    simp [hlen, hsize]
  refine ⟨hcount, hcount, ?_⟩
  intro d msg hgen
  unfold generateTask
  simp [hgen]

/-- Witness for C3: with an oracle that fails on the single drifted entry,
the run still produces one outcome and the entry receives the placeholder
content. -/
theorem executeFixes_generation_failure_isolated_witness :
    generateTask true (fun _ => .error "rate limited")
      ⟨{ id := "U1", codeRef := { filePath := "a.ts", symbolName := "f" },
         codeSignatureHash := "H1", codeSignatureText := none,
         docRef := { filePath := "docs/a.md" } }, none,
        { symbolName := "f", symbolType := "function",
          signatureText := "fn f()", isExported := true,
          hash := some "H2" }, "H2", "H1"⟩ =
      ⟨⟨{ id := "U1", codeRef := { filePath := "a.ts", symbolName := "f" },
          codeSignatureHash := "H1", codeSignatureText := none,
          docRef := { filePath := "docs/a.md" } }, none,
         { symbolName := "f", symbolType := "function",
           signatureText := "fn f()", isExported := true,
           hash := some "H2" }, "H2", "H1"⟩,
        generatePlaceholderContent "f" "fn f()", true, none⟩ :=
  (executeFixes_generation_failure_isolated []
    ⟨[], []⟩ ⟨false, false, false⟩ true (fun _ => .error "rate limited")
    (fun _ p => p) "." "doctype-map.json" (fun _ => none)
    (fun _ _ _ => ⟨false, none, none⟩)).2.2
    ⟨{ id := "U1", codeRef := { filePath := "a.ts", symbolName := "f" },
       codeSignatureHash := "H1", codeSignatureText := none,
       docRef := { filePath := "docs/a.md" } }, none,
      { symbolName := "f", symbolType := "function",
        signatureText := "fn f()", isExported := true,
        hash := some "H2" }, "H2", "H1"⟩
    "rate limited" rfl

/-! ## C5: dry run leaves the disk untouched -/

/-- C5. A dry-run fix on one drifted entry whose injection succeeds (the
target document holds a well-formed anchor block for the entry's id)
returns `success = true` with a single successful per-item outcome, while
the file system is returned exactly as it was, the map store is neither
updated in memory nor saved to disk, and no commit is attempted. -/
theorem executeFixes_dryRun_frame (d : DriftInfo) (mapState : MapState)
    (options : FixOptions) (useAI : Bool)
    (genOracle : DriftInfo → Except String (List Line))
    (resolveP : String → String → String) (projectBase mapPath : String)
    (fs : FS)
    (commitOracle : List String → List String → Bool → CommitResult)
    (hdry : options.dryRun = true)
    (P C S doc : List Line) (r : String)
    (hfs : fs (resolveP projectBase d.entry.docRef.filePath) = some doc)
    (hdoc : doc = P ++ [Line.startMarker d.entry.id r] ++ C ++
      [Line.endMarker d.entry.id] ++ S)
    (hP : ∀ l ∈ P, isStartFor d.entry.id l = false)
    (hC : ∀ l ∈ C, isEndFor d.entry.id l = false) :
    executeFixes [d] mapState options useAI genOracle resolveP projectBase
        mapPath fs commitOracle =
      (⟨1, 1, 0,
        [mkFixDetail d.entry true
          (some (generateTask useAI genOracle d).content) none], true⟩,
       fs, mapState, none) := by
  obtain ⟨memv, diskv⟩ := mapState
  have hg := generateTask_fields useAI genOracle d
  have hinj : (injectIntoFile fs
      (resolveP projectBase d.entry.docRef.filePath) d.entry.id
      (generateTask useAI genOracle d).content false).1.success = true :=
    injectIntoFile_nowrite_of_shape fs _ d.entry.id r P C S _ doc hfs hdoc
      hP hC
  have hgroups : groupByFile resolveP projectBase
      [generateTask useAI genOracle d] =
      [(resolveP projectBase d.entry.docRef.filePath,
        [generateTask useAI genOracle d])] := by
    simp [groupByFile, groupInsert, hg.2]
  unfold executeFixes
  simp only [List.map_cons, List.map_nil]
  rw [hgroups]
  simp only [List.foldl_cons, List.foldl_nil]
  rw [applyResult_dryRun_success_eq options _ _ _ hdry hg.1 (by
    simpa [hg.2] using hinj)]
  simp [injectIntoFile_nowrite_fs, hdry, hg.2]

/-- Witness for C5: a concrete dry run on one drifted entry over a
one-file file system succeeds and returns that file system unchanged. -/
theorem executeFixes_dryRun_frame_witness :
    executeFixes
      [⟨{ id := "a1", codeRef := { filePath := "a.ts", symbolName := "f" },
          codeSignatureHash := "H1", codeSignatureText := none,
          docRef := { filePath := "docs/a.md" } }, none,
        { symbolName := "f", symbolType := "function",
          signatureText := "fn f()", isExported := true,
          hash := some "H2" }, "H2", "H1"⟩]
      ⟨[], []⟩ ⟨true, true, false⟩ false (fun _ => .error "no key")
      (fun _ p => p) "." "doctype-map.json"
      (fun q => if q == "docs/a.md" then
        some ([Line.text "# Title"] ++ [Line.startMarker "a1" "a.ts#f"] ++
          [Line.text "old"] ++ [Line.endMarker "a1"] ++ [])
        else none)
      (fun _ _ _ => ⟨false, none, none⟩) =
      (⟨1, 1, 0,
        [mkFixDetail
          { id := "a1", codeRef := { filePath := "a.ts", symbolName := "f" },
            codeSignatureHash := "H1", codeSignatureText := none,
            docRef := { filePath := "docs/a.md" } } true
          (some (generateTask false (fun _ => .error "no key")
            ⟨{ id := "a1",
               codeRef := { filePath := "a.ts", symbolName := "f" },
               codeSignatureHash := "H1", codeSignatureText := none,
               docRef := { filePath := "docs/a.md" } }, none,
              { symbolName := "f", symbolType := "function",
                signatureText := "fn f()", isExported := true,
                hash := some "H2" }, "H2", "H1"⟩).content) none], true⟩,
       (fun q => if q == "docs/a.md" then
        some ([Line.text "# Title"] ++ [Line.startMarker "a1" "a.ts#f"] ++
          [Line.text "old"] ++ [Line.endMarker "a1"] ++ [])
        else none),
       ⟨[], []⟩, none) :=
  executeFixes_dryRun_frame
    ⟨{ id := "a1", codeRef := { filePath := "a.ts", symbolName := "f" },
       codeSignatureHash := "H1", codeSignatureText := none,
       docRef := { filePath := "docs/a.md" } }, none,
      { symbolName := "f", symbolType := "function",
        signatureText := "fn f()", isExported := true,
        hash := some "H2" }, "H2", "H1"⟩
    ⟨[], []⟩ ⟨true, true, false⟩ false (fun _ => .error "no key")
    (fun _ p => p) "." "doctype-map.json"
    (fun q => if q == "docs/a.md" then
      some ([Line.text "# Title"] ++ [Line.startMarker "a1" "a.ts#f"] ++
        [Line.text "old"] ++ [Line.endMarker "a1"] ++ [])
      else none)
    (fun _ _ _ => ⟨false, none, none⟩) rfl
    [Line.text "# Title"] [Line.text "old"] []
    ([Line.text "# Title"] ++ [Line.startMarker "a1" "a.ts#f"] ++
      [Line.text "old"] ++ [Line.endMarker "a1"] ++ [])
    "a.ts#f" rfl rfl (by decide) (by decide)

/-! ## C7: the Sintesi orchestrator saves the map after every injection -/

/-- Helper: rewriting the entry with a given id updates exactly that entry
in a map lookup. -/
theorem getEntryById_map_update (entries : List DoctypeMapEntry)
    (id newHash : String) (newText : Option String) (e0 : DoctypeMapEntry)
    (hfind : getEntryById entries id = some e0) :
    getEntryById (entries.map (fun e =>
      if e.id == id then
        { e with codeSignatureHash := newHash, codeSignatureText := newText }
      else e)) id =
      some { e0 with codeSignatureHash := newHash,
                     codeSignatureText := newText } := by
  induction entries with
  | nil => simp [getEntryById] at hfind
  | cons e rest ih =>
      cases hb : (e.id == id) with
      | true =>
          have he : e = e0 := by
            unfold getEntryById at hfind
            simp only [List.find?_cons, hb, cond_true] at hfind
            exact Option.some.inj hfind
          subst he
          simp only [List.map_cons, if_pos hb]
          unfold getEntryById
          simp only [List.find?_cons, hb, cond_true]
      | false =>
          have hfind2 : getEntryById rest id = some e0 := by
            unfold getEntryById at hfind ⊢
            simpa only [List.find?_cons, hb, cond_false] using hfind
          have hbneg : ¬ ((e.id == id) = true) := by simp [hb]
          simp only [List.map_cons, if_neg hbneg]
          unfold getEntryById at ih ⊢
          simp only [List.find?_cons, hb, cond_false]
          exact ih hfind2

/-- Helper: the Sintesi injection section preserves the invariant that the
on-disk map equals the in-memory map. -/
theorem processTaskS_disk_eq_mem (options : FixOptions)
    (resolveP : String → String → String) (projectBase : String)
    (st : SintesiState) (d : DriftInfo) (content : List Line)
    (hinv : st.mapDisk = st.mapMem) :
    (processTaskS options resolveP projectBase st d content).1.mapDisk =
    (processTaskS options resolveP projectBase st d content).1.mapMem := by
  cases hdry : options.dryRun with
  | true =>
      cases hsw : (sintesiWrite st.fs
          (resolveP projectBase d.entry.docRef.filePath) d content
          false).1.success with
      | true => simp [processTaskS, hdry, hsw, hinv]
      | false => simp [processTaskS, hdry, hsw, hinv]
  | false =>
      cases hsw : (sintesiWrite st.fs
          (resolveP projectBase d.entry.docRef.filePath) d content
          true).1.success with
      | true => simp [processTaskS, hdry, hsw]
      | false => simp [processTaskS, hdry, hsw, hinv]

/-- Helper: running any task list keeps the on-disk map equal to the
in-memory map. -/
theorem runSintesi_disk_eq_mem (options : FixOptions)
    (resolveP : String → String → String) (projectBase : String) :
    ∀ (tasks : List (DriftInfo × List Line))
      (acc : SintesiState × List FixDetail),
      acc.1.mapDisk = acc.1.mapMem →
      (tasks.foldl (fun acc t =>
        ((processTaskS options resolveP projectBase acc.1 t.1 t.2).1,
          acc.2 ++ [(processTaskS options resolveP projectBase acc.1 t.1
            t.2).2])) acc).1.mapDisk =
      (tasks.foldl (fun acc t =>
        ((processTaskS options resolveP projectBase acc.1 t.1 t.2).1,
          acc.2 ++ [(processTaskS options resolveP projectBase acc.1 t.1
            t.2).2])) acc).1.mapMem := by
  intro tasks
  induction tasks with
  | nil => intro acc h; exact h
  | cons t rest ih =>
      intro acc h
      simp only [List.foldl_cons]
      exact ih _ (processTaskS_disk_eq_mem options resolveP projectBase
        acc.1 t.1 t.2 h)

/-- C7. In a non-dry-run Sintesi fix run: (a) each successful injection
updates the corresponding map entry with the new hash and signature text
and the map store is saved immediately — the updated entry is on disk as
soon as the item finishes, not only at the end of the run; (b) starting
from a loaded map (disk = memory), after any prefix of the processed items
— an interruption point — the on-disk map equals the in-memory map, so the
run loses at most the single in-flight item. -/
theorem sintesi_immediate_save (options : FixOptions)
    (resolveP : String → String → String) (projectBase : String)
    (hdry : options.dryRun = false) :
    (∀ (st : SintesiState) (d : DriftInfo) (content : List Line)
      (e0 : DoctypeMapEntry),
      getEntryById st.mapMem d.entry.id = some e0 →
      (processTaskS options resolveP projectBase st d content).2.success =
        true →
      (processTaskS options resolveP projectBase st d
        content).1.mapDisk =
        (processTaskS options resolveP projectBase st d content).1.mapMem ∧
      getEntryById
        (processTaskS options resolveP projectBase st d content).1.mapDisk
        d.entry.id =
        some { e0 with
                codeSignatureHash := d.currentSignature.hash.getD "",
                codeSignatureText :=
                  some d.currentSignature.signatureText }) ∧
    (∀ (st : SintesiState) (tasks : List (DriftInfo × List Line)) (k : Nat),
      st.mapDisk = st.mapMem →
      (runSintesi options resolveP projectBase st (tasks.take k)).1.mapDisk =
      (runSintesi options resolveP projectBase st
        (tasks.take k)).1.mapMem) := by
  constructor
  · intro st d content e0 hmem hsucc
    have hupd : updateEntry st.mapMem d.entry.id
        (d.currentSignature.hash.getD "")
        (some d.currentSignature.signatureText) =
        .ok (st.mapMem.map (fun e =>
          if e.id == d.entry.id then
            { e with codeSignatureHash := d.currentSignature.hash.getD "",
                     codeSignatureText :=
                       some d.currentSignature.signatureText }
          else e)) := by
      simp [updateEntry, hmem]
    cases hsw : (sintesiWrite st.fs
        (resolveP projectBase d.entry.docRef.filePath) d content
        true).1.success with
    | false =>
        unfold processTaskS at hsucc
        rw [hdry] at hsucc
        simp only [Bool.not_false] at hsucc
        rw [if_neg (by simp [hsw])] at hsucc
        simp [mkFixDetail] at hsucc
    | true =>
        have hmain : processTaskS options resolveP projectBase st d
            content =
            (⟨(sintesiWrite st.fs
                (resolveP projectBase d.entry.docRef.filePath) d content
                true).2,
              st.mapMem.map (fun e =>
                if e.id == d.entry.id then
                  { e with
                      codeSignatureHash := d.currentSignature.hash.getD "",
                      codeSignatureText :=
                        some d.currentSignature.signatureText }
                else e),
              st.mapMem.map (fun e =>
                if e.id == d.entry.id then
                  { e with
                      codeSignatureHash := d.currentSignature.hash.getD "",
                      codeSignatureText :=
                        some d.currentSignature.signatureText }
                else e)⟩,
             mkFixDetail d.entry true (some content) none) := by
          unfold processTaskS
          rw [hdry]
          simp only [Bool.not_false]
          rw [if_pos hsw]
          simp only [Bool.false_eq_true, if_false, hmem, hupd]
        rw [hmain]
        exact ⟨rfl,
          getEntryById_map_update st.mapMem d.entry.id _ _ e0 hmem⟩
  · intro st tasks k h
    exact runSintesi_disk_eq_mem options resolveP projectBase
      (tasks.take k) (st, []) h

/-- Witness for C7: after one successful Sintesi injection, the on-disk
map already holds the entry with the new hash and signature text. -/
theorem sintesi_immediate_save_witness :
    getEntryById
      (processTaskS ⟨false, true, false⟩ (fun _ p => p) "."
        ⟨(fun q => if q == "docs/a.md" then
            some [Line.startMarker "a1" "a.ts#f", Line.text "old",
              Line.endMarker "a1"]
          else none),
         [{ id := "a1", codeRef := { filePath := "a.ts", symbolName := "f" },
            codeSignatureHash := "H1", codeSignatureText := none,
            docRef := { filePath := "docs/a.md" } }],
         [{ id := "a1", codeRef := { filePath := "a.ts", symbolName := "f" },
            codeSignatureHash := "H1", codeSignatureText := none,
            docRef := { filePath := "docs/a.md" } }]⟩
        ⟨{ id := "a1", codeRef := { filePath := "a.ts", symbolName := "f" },
           codeSignatureHash := "H1", codeSignatureText := none,
           docRef := { filePath := "docs/a.md" } }, none,
          { symbolName := "f", symbolType := "function",
            signatureText := "fn f()", isExported := true,
            hash := some "H2" }, "H2", "H1"⟩
        [Line.text "new"]).1.mapDisk
      "a1" =
      some { id := "a1",
             codeRef := { filePath := "a.ts", symbolName := "f" },
             codeSignatureHash := "H2",
             codeSignatureText := some "fn f()",
             docRef := { filePath := "docs/a.md" } } :=
  ((sintesi_immediate_save ⟨false, true, false⟩ (fun _ p => p) "." rfl).1
    ⟨(fun q => if q == "docs/a.md" then
        some [Line.startMarker "a1" "a.ts#f", Line.text "old",
          Line.endMarker "a1"]
      else none),
     [{ id := "a1", codeRef := { filePath := "a.ts", symbolName := "f" },
        codeSignatureHash := "H1", codeSignatureText := none,
        docRef := { filePath := "docs/a.md" } }],
     [{ id := "a1", codeRef := { filePath := "a.ts", symbolName := "f" },
        codeSignatureHash := "H1", codeSignatureText := none,
        docRef := { filePath := "docs/a.md" } }]⟩
    ⟨{ id := "a1", codeRef := { filePath := "a.ts", symbolName := "f" },
       codeSignatureHash := "H1", codeSignatureText := none,
       docRef := { filePath := "docs/a.md" } }, none,
      { symbolName := "f", symbolType := "function",
        signatureText := "fn f()", isExported := true,
        hash := some "H2" }, "H2", "H1"⟩
    [Line.text "new"]
    { id := "a1", codeRef := { filePath := "a.ts", symbolName := "f" },
      codeSignatureHash := "H1", codeSignatureText := none,
      docRef := { filePath := "docs/a.md" } }
    (by decide) (by decide)).2

/-! ## C10: `pMap` fills all slots in input order with bounded workers -/

/-- Helper: the initial `pMap` state satisfies the run invariant. -/
theorem pMapInv_init {T R : Type} (items : List T) (f : T → R)
    (conc : Nat) : pMapInv items f conc (pMapInit R items.length conc) := by
  refine ⟨by simp [pMapInit], by simp [pMapInit], by simp [pMapInit],
    ?_, ?_, ?_, ?_, ?_⟩
  · intro j h0 hlen
    simp [pMapInit, List.getElem?_replicate, hlen]
  · intro w i hw
    rcases Nat.lt_or_ge w conc with h | h
    · simp [pMapInit, List.getElem?_replicate, h] at hw
    · simp [pMapInit, List.getElem?_replicate, Nat.not_lt.mpr h] at hw
  · intro w w2 i hw hw2
    rcases Nat.lt_or_ge w conc with h | h
    · simp [pMapInit, List.getElem?_replicate, h] at hw
    · simp [pMapInit, List.getElem?_replicate, Nat.not_lt.mpr h] at hw
  · intro j hj
    simp [pMapInit] at hj
  · rintro ⟨w, hw⟩
    rcases Nat.lt_or_ge w conc with h | h
    · simp [pMapInit, List.getElem?_replicate, h] at hw
    · simp [pMapInit, List.getElem?_replicate, Nat.not_lt.mpr h] at hw

/-- Helper: every `pMap` step preserves the run invariant. -/
theorem pMapInv_preserved {T R : Type} (items : List T) (f : T → R)
    (conc : Nat) (s s2 : PMapState R) (hstep : PMapStep items f s s2)
    (hinv : pMapInv items f conc s) : pMapInv items f conc s2 := by
  obtain ⟨hrl, hwl, hnle, hnone, hrun, huniq, hclaim, hdone⟩ := hinv
  cases hstep with
  | claim w hw hidx =>
      unfold pMapInv
      dsimp only
      have hwlen : w < s.workers.length := (List.getElem?_eq_some.mp hw).1
      refine ⟨hrl, by simpa using hwl, by omega, ?_, ?_, ?_, ?_, ?_⟩
      · intro j hj hjlen
        exact hnone j (by omega) hjlen
      · intro w2 i hw2
        by_cases hww : w = w2
        · subst hww
          rw [List.getElem?_set_eq_of_lt _ hwlen] at hw2
          have h2 : WStatus.running s.nextIndex = WStatus.running i :=
            Option.some.inj hw2
          injection h2 with h3
          subst h3
          exact ⟨by omega, hnone s.nextIndex (Nat.le_refl _) hidx⟩
        · rw [List.getElem?_set_ne hww] at hw2
          obtain ⟨h1, h2⟩ := hrun w2 i hw2
          exact ⟨by omega, h2⟩
      · intro w2 w3 i hw2 hw3
        by_cases h2 : w = w2
        · by_cases h3 : w = w3
          · omega
          · subst h2
            rw [List.getElem?_set_eq_of_lt _ hwlen] at hw2
            rw [List.getElem?_set_ne h3] at hw3
            have h4 : WStatus.running s.nextIndex = WStatus.running i :=
              Option.some.inj hw2
            injection h4 with h5
            subst h5
            have := (hrun w3 s.nextIndex hw3).1
            omega
        · by_cases h3 : w = w3
          · subst h3
            rw [List.getElem?_set_eq_of_lt _ hwlen] at hw3
            rw [List.getElem?_set_ne h2] at hw2
            have h4 : WStatus.running s.nextIndex = WStatus.running i :=
              Option.some.inj hw3
            injection h4 with h5
            subst h5
            have := (hrun w2 s.nextIndex hw2).1
            omega
          · rw [List.getElem?_set_ne h2] at hw2
            rw [List.getElem?_set_ne h3] at hw3
            exact huniq w2 w3 i hw2 hw3
      · intro j hj
        by_cases hjn : j = s.nextIndex
        · subst hjn
          left
          exact ⟨w, by rw [List.getElem?_set_eq_of_lt _ hwlen]⟩
        · rcases hclaim j (by omega) with ⟨w2, hw2⟩ | hfill
          · left
            by_cases hww : w = w2
            · subst hww
              exact absurd (hw.symm.trans hw2) (by simp)
            · exact ⟨w2, by rw [List.getElem?_set_ne hww]; exact hw2⟩
          · right
            exact hfill
      · rintro ⟨w2, hw2⟩
        by_cases hww : w = w2
        · subst hww
          rw [List.getElem?_set_eq_of_lt _ hwlen] at hw2
          exact absurd (Option.some.inj hw2) (by simp)
        · rw [List.getElem?_set_ne hww] at hw2
          have := hdone ⟨w2, hw2⟩
          omega
  | finish w hw hidx =>
      unfold pMapInv
      dsimp only
      have hwlen : w < s.workers.length := (List.getElem?_eq_some.mp hw).1
      refine ⟨hrl, by simpa using hwl, hnle, hnone, ?_, ?_, ?_, ?_⟩
      · intro w2 i hw2
        by_cases hww : w = w2
        · subst hww
          rw [List.getElem?_set_eq_of_lt _ hwlen] at hw2
          exact absurd (Option.some.inj hw2) (by simp)
        · rw [List.getElem?_set_ne hww] at hw2
          exact hrun w2 i hw2
      · intro w2 w3 i hw2 hw3
        by_cases h2 : w = w2
        · subst h2
          rw [List.getElem?_set_eq_of_lt _ hwlen] at hw2
          exact absurd (Option.some.inj hw2) (by simp)
        · by_cases h3 : w = w3
          · subst h3
            rw [List.getElem?_set_eq_of_lt _ hwlen] at hw3
            exact absurd (Option.some.inj hw3) (by simp)
          · rw [List.getElem?_set_ne h2] at hw2
            rw [List.getElem?_set_ne h3] at hw3
            exact huniq w2 w3 i hw2 hw3
      · intro j hj
        rcases hclaim j hj with ⟨w2, hw2⟩ | hfill
        · left
          by_cases hww : w = w2
          · subst hww
            exact absurd (hw.symm.trans hw2) (by simp)
          · exact ⟨w2, by rw [List.getElem?_set_ne hww]; exact hw2⟩
        · right
          exact hfill
      · intro _
        omega
  | complete w i hw hi =>
      unfold pMapInv
      dsimp only
      have hwlen : w < s.workers.length := (List.getElem?_eq_some.mp hw).1
      obtain ⟨hi_lt, hi_none⟩ := hrun w i hw
      have hilen : i < s.results.length := by omega
      refine ⟨by simpa using hrl, by simpa using hwl, hnle, ?_, ?_, ?_, ?_,
        ?_⟩
      · intro j hj hjlen
        have hij : i ≠ j := by omega
        rw [List.getElem?_set_ne hij]
        exact hnone j hj hjlen
      · intro w2 i2 hw2
        by_cases hww : w = w2
        · subst hww
          rw [List.getElem?_set_eq_of_lt _ hwlen] at hw2
          exact absurd (Option.some.inj hw2) (by simp)
        · rw [List.getElem?_set_ne hww] at hw2
          obtain ⟨ha, hb⟩ := hrun w2 i2 hw2
          refine ⟨ha, ?_⟩
          have hii : i ≠ i2 := by
            intro he
            exact hww (huniq w w2 i hw (he ▸ hw2))
          rw [List.getElem?_set_ne hii]
          exact hb
      · intro w2 w3 i2 hw2 hw3
        by_cases h2 : w = w2
        · subst h2
          rw [List.getElem?_set_eq_of_lt _ hwlen] at hw2
          exact absurd (Option.some.inj hw2) (by simp)
        · by_cases h3 : w = w3
          · subst h3
            rw [List.getElem?_set_eq_of_lt _ hwlen] at hw3
            exact absurd (Option.some.inj hw3) (by simp)
          · rw [List.getElem?_set_ne h2] at hw2
            rw [List.getElem?_set_ne h3] at hw3
            exact huniq w2 w3 i2 hw2 hw3
      · intro j hj
        by_cases hji : j = i
        · subst hji
          right
          exact ⟨hi, by rw [List.getElem?_set_eq_of_lt _ hilen]⟩
        · rcases hclaim j hj with ⟨w2, hw2⟩ | ⟨hjl, hfill⟩
          · by_cases hww : w = w2
            · subst hww
              have h4 : WStatus.running i = WStatus.running j :=
                Option.some.inj (hw.symm.trans hw2)
              injection h4 with h5
              exact absurd h5.symm hji
            · left
              exact ⟨w2, by rw [List.getElem?_set_ne hww]; exact hw2⟩
          · right
            refine ⟨hjl, ?_⟩
            rw [List.getElem?_set_ne (fun he => hji he.symm)]
            exact hfill
      · rintro ⟨w2, hw2⟩
        apply hdone
        by_cases hww : w = w2
        · subst hww
          rw [List.getElem?_set_eq_of_lt _ hwlen] at hw2
          exact absurd (Option.some.inj hw2) (by simp)
        · rw [List.getElem?_set_ne hww] at hw2
          exact ⟨w2, hw2⟩

/-- Helper: every reachable `pMap` state satisfies the run invariant. -/
theorem pMapInv_reachable {T R : Type} (items : List T) (f : T → R)
    (conc : Nat) (s : PMapState R)
    (h : PMapReachable items f conc s) : pMapInv items f conc s := by
  unfold PMapReachable at h
  induction h with
  | refl => exact pMapInv_init items f conc
  | tail hab hbc ih => exact pMapInv_preserved items f conc _ _ hbc ih

/-- C10. For every input list, mapper and positive concurrency bound: in
every reachable state of a `pMap` run, at most `concurrency` mapper
invocations are in flight at once, and when the run finishes (all worker
loops exited) the result array has exactly the input's length and its
`i`-th slot holds the mapper's value for the `i`-th input item — input
order is preserved regardless of completion order. -/
theorem pMap_fills_results_in_order_with_bounded_workers {T R : Type}
    (items : List T) (f : T → R) (conc : Nat) (hconc : 0 < conc)
    (s : PMapState R) (hreach : PMapReachable items f conc s) :
    (s.workers.filter isRunningW).length ≤ conc ∧
    (pMapFinished s →
      s.results = (items.map f).map some ∧
      s.results.length = items.length) := by
  obtain ⟨hrl, hwl, hnle, hnone, hrun, huniq, hclaim, hdone⟩ :=
    pMapInv_reachable items f conc s hreach
  constructor
  · calc (s.workers.filter isRunningW).length ≤ s.workers.length :=
          List.length_filter_le _ _
      _ = conc := hwl
  · intro hfin
    have hw0 : ∃ w : Nat, s.workers[w]? = some WStatus.done := by
      have hlen : 0 < s.workers.length := by omega
      refine ⟨0, ?_⟩
      rw [List.getElem?_eq_getElem hlen]
      exact congrArg some (hfin _ (List.getElem_mem hlen))
    have hnext : s.nextIndex = items.length := hdone hw0
    have hres : s.results = (items.map f).map some := by
      apply List.ext_getElem?_iff.mpr
      intro j
      by_cases hj : j < items.length
      · rcases hclaim j (by omega) with ⟨w2, hw2⟩ | ⟨hjl, hfill⟩
        · obtain ⟨hlt, heq⟩ := List.getElem?_eq_some.mp hw2
          have hmem : WStatus.running j ∈ s.workers := by
            rw [← heq]
            exact List.getElem_mem hlt
          exact absurd (hfin _ hmem) (by simp)
        · rw [hfill, List.getElem?_map, List.getElem?_map,
            List.getElem?_eq_getElem hj]
          simp [List.get_eq_getElem]
      · rw [List.getElem?_eq_none (by omega : s.results.length ≤ j),
          List.getElem?_eq_none (by simpa using by omega :
            ((items.map f).map some).length ≤ j)]
    exact ⟨hres, hrl⟩

/-- Witness for C10: a one-item run with one worker — claim, complete,
exit — finishes with the result slot holding the mapped value. -/
theorem pMap_fills_results_in_order_with_bounded_workers_witness :
    (⟨1, [some 8], [WStatus.done]⟩ : PMapState Nat).results =
      ([7].map (fun x => x + 1)).map some := by
  have h1 : PMapStep [7] (fun x => x + 1) (pMapInit Nat 1 1)
      ⟨1, [none], [WStatus.running 0]⟩ :=
    PMapStep.claim (pMapInit Nat 1 1) 0 rfl (by decide)
  have h2 : PMapStep [7] (fun x => x + 1)
      ⟨1, [none], [WStatus.running 0]⟩ ⟨1, [some 8], [WStatus.idle]⟩ :=
    PMapStep.complete ⟨1, [none], [WStatus.running 0]⟩ 0 0 rfl (by decide)
  have h3 : PMapStep [7] (fun x => x + 1)
      ⟨1, [some 8], [WStatus.idle]⟩ ⟨1, [some 8], [WStatus.done]⟩ :=
    PMapStep.finish ⟨1, [some 8], [WStatus.idle]⟩ 0 rfl (by decide)
  have hreach : PMapReachable [7] (fun x => x + 1) 1
      ⟨1, [some 8], [WStatus.done]⟩ :=
    Relation.ReflTransGen.tail
      (Relation.ReflTransGen.tail
        (Relation.ReflTransGen.tail Relation.ReflTransGen.refl h1) h2) h3
  exact ((pMap_fills_results_in_order_with_bounded_workers [7]
    (fun x => x + 1) 1 (by decide) _ hreach).2
    (by intro x hx; exact List.mem_singleton.mp hx)).1

end Doctype
